import Mathlib

/-!
Verification of the Dockerfile validation engine (`src/dockerValidator.ts`).

The validator itself (directive resolution, argument checks, the structural
raw-text scanner and the JSON-array validator) is embedded faithfully from the
source.  The external collaborators that the source consumes — the text/position
accessor and the parsed instruction/directive document model — are not part of
the validator source; they are modelled from the specification (§3, §6) and
are marked `Modelled from the spec:` below.

Text is represented as `List Char`; offsets are `Nat` for scanning and `Int`
where the source can produce `-1` (the JSON validator's `last` marker).
-/

namespace DockerValidator

/-! ## Text and position primitives -/

/-- `text.charAt(i)` of JavaScript: `none` models the empty string returned
for an out-of-range index. -/
def charAt (text : List Char) (i : Nat) : Option Char :=
  text.get? i

/-- Modelled from the spec: `Util.isWhitespace` of the external `docker` helper
module ("generic whitespace" in §4.2/§4.5): space, tab, carriage return or
line feed. -/
def isWhitespace (c : Char) : Bool :=
  c = ' ' ∨ c = '\t' ∨ c = '\r' ∨ c = '\n'

/-- A position, zero-based line and character (§3). -/
structure Position where
  line : Nat
  character : Nat
deriving DecidableEq, Repr

/-- A range; `stop` stands for the source's `end` field (a Lean keyword). -/
structure Range where
  start : Position
  stop : Position
deriving DecidableEq, Repr

/-- Lexicographic order on positions: line first, then character. -/
def posLe (p q : Position) : Prop :=
  p.line < q.line ∨ (p.line = q.line ∧ p.character ≤ q.character)

instance (p q : Position) : Decidable (posLe p q) := by
  unfold posLe; infer_instance

/-- Modelled from the spec: the external text accessor's table of line-start
offsets.  A line starts at offset 0 and after every line break; `\r\n` counts
as a single break. -/
def lineOffsetsAux : List Char → Nat → List Nat
  | [], _ => []
  | '\r' :: '\n' :: rest, i => (i + 2) :: lineOffsetsAux rest (i + 2)
  | '\r' :: rest, i => (i + 1) :: lineOffsetsAux rest (i + 1)
  | '\n' :: rest, i => (i + 1) :: lineOffsetsAux rest (i + 1)
  | _ :: rest, i => lineOffsetsAux rest (i + 1)

/-- Modelled from the spec: offsets at which each line of `text` starts. -/
def lineOffsets (text : List Char) : List Nat :=
  0 :: lineOffsetsAux text 0

/-- Number of lines of the document. -/
def numLines (text : List Char) : Nat :=
  (lineOffsets text).length

/-- Start offset of line `l` (0 when out of range). -/
def lineStart (text : List Char) (l : Nat) : Nat :=
  (lineOffsets text).getD l 0

/-- One-past-the-last offset belonging to line `l`. -/
def lineStop (text : List Char) (l : Nat) : Nat :=
  if l + 1 < numLines text then lineStart text (l + 1) else text.length

/-- Modelled from the spec: the accessor clamps an offset into `[0, length]`
before converting it to a position. -/
def clampOffset (text : List Char) (offset : Int) : Nat :=
  if offset ≤ 0 then 0 else min offset.toNat text.length

/-- Walk the line-offset table: count the entries `≤ off` and remember the
last one.  `line` and `lineOff` accumulate the count and the last entry. -/
def lineLookup : List Nat → Nat → Nat → Nat → Nat × Nat
  | [], _, line, lineOff => (line, lineOff)
  | o :: rest, off, line, lineOff =>
    if o ≤ off then lineLookup rest off (line + 1) o else (line, lineOff)

/-- Modelled from the spec: offset → Position conversion of the external text
accessor (binary search over the line-offset table, offset clamped to the
document). -/
def positionAt (text : List Char) (offset : Int) : Position :=
  let off := clampOffset text offset
  let r := lineLookup (lineOffsets text) off 0 0
  ⟨r.1 - 1, off - r.2⟩

/-- Modelled from the spec: Position → offset conversion of the external text
accessor; the line is clamped to the document and the character to the line. -/
def offsetAt (text : List Char) (p : Position) : Nat :=
  let lo := lineOffsets text
  if p.line ≥ lo.length then text.length
  else
    let lineOffset := lo.getD p.line 0
    let nextLineOffset := if p.line + 1 < lo.length then lo.getD (p.line + 1) 0 else text.length
    max (min (lineOffset + p.character) nextLineOffset) lineOffset

/-- A position lies within the document: its line exists and its character
does not run past the end of that line. -/
def posInBounds (text : List Char) (p : Position) : Prop :=
  p.line < numLines text ∧ lineStart text p.line + p.character ≤ lineStop text p.line

instance (text : List Char) (p : Position) : Decidable (posInBounds text p) := by
  unfold posInBounds; infer_instance

/-! ## Diagnostics (data model, §3, and the factory of the source) -/

inductive DiagnosticSeverity where
  | Error
  | Warning
deriving DecidableEq, Repr

inductive ValidationCode where
  | DEFAULT
  | LOWERCASE
  | EXTRA_ARGUMENT
  | NO_SOURCE_IMAGE
  | MISSING_ARGUMENT
  | INVALID_ESCAPE_DIRECTIVE
  | INVALID_PORT
  | INVALID_STOPSIGNAL
  | UNKNOWN_DIRECTIVE
  | UNKNOWN_INSTRUCTION
  | DEPRECATED_MAINTAINER
deriving DecidableEq, Repr

inductive ValidationSeverity where
  | IGNORE
  | WARNING
  | ERROR
deriving DecidableEq, Repr

structure ValidatorSettings where
  deprecatedMaintainer : ValidationSeverity
deriving DecidableEq, Repr

/-- The message is optional: one catalog lookup in the source misses its key
(`invalidStopsignal` vs `invalidStopSignal`) and yields `undefined`. -/
structure Diagnostic where
  range : Range
  message : Option String
  severity : DiagnosticSeverity
  code : ValidationCode
  source : String
deriving DecidableEq, Repr

/-- The source's `dockerProblems` message map. -/
def dockerProblems : String → Option String
  | "directiveUnknown" => some "Unknown directive: ${0}"
  | "directiveEscapeInvalid" => some "invalid ESCAPE '${0}'. Must be ` or \\"
  | "noSourceImage" => some "No source image provided with `FROM`"
  | "invalidPort" => some "Invalid containerPort: ${0}"
  | "invalidStopSignal" => some "Invalid stop signal"
  | "instructionExtraArgument" => some "Instruction has an extra argument"
  | "instructionMissingArgument" => some "Instruction has no arguments"
  | "instructionUnknown" => some "Unknown instruction: ${0}"
  | "instructionCasing" => some "Instructions should be written in uppercase letters"
  | "deprecatedMaintainer" => some "MAINTAINER has been deprecated"
  | "unexpectedToken" => some "Unexpected token"
  | _ => none

def formatMessage (text varText : String) : String :=
  text.replace "${0}" varText

def getDiagnosticMessage_DirectiveUnknown (directive : String) : Option String :=
  (dockerProblems "directiveUnknown").map (formatMessage · directive)

def getDiagnosticMessage_DirectiveEscapeInvalid (value : String) : Option String :=
  (dockerProblems "directiveEscapeInvalid").map (formatMessage · value)

def getDiagnosticMessage_NoSourceImage : Option String :=
  dockerProblems "noSourceImage"

def getDiagnosticMessage_InvalidPort (port : String) : Option String :=
  (dockerProblems "invalidPort").map (formatMessage · port)

/-- The source looks up `invalidStopsignal`, which is not a key of the map. -/
def getDiagnosticMessage_InvalidStopsignal : Option String :=
  dockerProblems "invalidStopsignal"

def getDiagnosticMessage_InstructionExtraArgument : Option String :=
  dockerProblems "instructionExtraArgument"

def getDiagnosticMessage_InstructionMissingArgument : Option String :=
  dockerProblems "instructionMissingArgument"

def getDiagnosticMessage_InstructionUnknown (instruction : String) : Option String :=
  (dockerProblems "instructionUnknown").map (formatMessage · instruction)

def getDiagnosticMessage_InstructionCasing : Option String :=
  dockerProblems "instructionCasing"

def getDiagnosticMessage_DeprecatedMaintainer : Option String :=
  dockerProblems "deprecatedMaintainer"

def getDiagnosticMessage_UnexpectedToken : Option String :=
  dockerProblems "unexpectedToken"

/-- `createDiagnostic` of the source: offsets are converted to positions by
the text accessor; a missing code defaults to `DEFAULT`. -/
def createDiagnostic (text : List Char) (severity : DiagnosticSeverity)
    (start stop : Int) (description : Option String) (code : Option ValidationCode) :
    Diagnostic :=
  { range := ⟨positionAt text start, positionAt text stop⟩
    message := description
    severity := severity
    code := code.getD ValidationCode.DEFAULT
    source := "dockerfile-lsp" }

def createError (text : List Char) (start stop : Int) (description : Option String)
    (code : Option ValidationCode) : Diagnostic :=
  createDiagnostic text DiagnosticSeverity.Error start stop description code

def createWarning (text : List Char) (start stop : Int) (description : Option String)
    (code : Option ValidationCode) : Diagnostic :=
  createDiagnostic text DiagnosticSeverity.Warning start stop description code

def createUnknownDirective (text : List Char) (start stop : Int) (directive : String) :
    Diagnostic :=
  createError text start stop (getDiagnosticMessage_DirectiveUnknown directive)
    (some ValidationCode.UNKNOWN_DIRECTIVE)

def createInvalidEscapeDirective (text : List Char) (start stop : Int) (value : String) :
    Diagnostic :=
  createError text start stop (getDiagnosticMessage_DirectiveEscapeInvalid value)
    (some ValidationCode.INVALID_ESCAPE_DIRECTIVE)

def createInvalidPort (text : List Char) (start stop : Int) (port : String) : Diagnostic :=
  createError text start stop (getDiagnosticMessage_InvalidPort port)
    (some ValidationCode.INVALID_PORT)

def createInvalidStopSignal (text : List Char) (start stop : Int) : Diagnostic :=
  createError text start stop getDiagnosticMessage_InvalidStopsignal
    (some ValidationCode.INVALID_STOPSIGNAL)

def createMissingArgument (text : List Char) (start stop : Int) : Diagnostic :=
  createError text start stop getDiagnosticMessage_InstructionMissingArgument
    (some ValidationCode.MISSING_ARGUMENT)

def createExtraArgument (text : List Char) (start stop : Int) : Diagnostic :=
  createError text start stop getDiagnosticMessage_InstructionExtraArgument
    (some ValidationCode.EXTRA_ARGUMENT)

/-- `createUnexpectedToken` passes no code, so the diagnostic gets `DEFAULT`. -/
def createUnexpectedToken (text : List Char) (start stop : Int) : Diagnostic :=
  createError text start stop getDiagnosticMessage_UnexpectedToken none

def createNoSourceImage (text : List Char) (start stop : Int) : Diagnostic :=
  createError text start stop getDiagnosticMessage_NoSourceImage
    (some ValidationCode.NO_SOURCE_IMAGE)

def createUnknownInstruction (text : List Char) (start stop : Int) (instruction : String) :
    Diagnostic :=
  createError text start stop (getDiagnosticMessage_InstructionUnknown instruction)
    (some ValidationCode.UNKNOWN_INSTRUCTION)

def createUppercaseInstruction (text : List Char) (start stop : Int) : Diagnostic :=
  createWarning text start stop getDiagnosticMessage_InstructionCasing
    (some ValidationCode.LOWERCASE)

/-- `createMaintainerDeprecated`: `none` when the configured severity is
`IGNORE` (the caller then pushes nothing). -/
def createMaintainerDeprecated (settings : ValidatorSettings) (text : List Char)
    (start stop : Int) : Option Diagnostic :=
  match settings.deprecatedMaintainer with
  | ValidationSeverity.ERROR =>
    some (createDiagnostic text DiagnosticSeverity.Error start stop
      getDiagnosticMessage_DeprecatedMaintainer (some ValidationCode.DEPRECATED_MAINTAINER))
  | ValidationSeverity.WARNING =>
    some (createDiagnostic text DiagnosticSeverity.Warning start stop
      getDiagnosticMessage_DeprecatedMaintainer (some ValidationCode.DEPRECATED_MAINTAINER))
  | ValidationSeverity.IGNORE => none

/-! ## External document model

Modelled from the spec: the instruction/directive document model is produced
by the external "parser" collaborator (§3, §6) before validation starts.  It
is read-only input for the validator, so it is embedded as plain data. -/

/-- Modelled from the spec: one tokenized argument with its range (§6). -/
structure Argument where
  value : String
  range : Range
deriving DecidableEq, Repr

/-- Modelled from the spec: one parsed instruction (§3): canonical uppercased
keyword, raw written keyword, textual content, the keyword-only range, and the
escape-aware argument tokenization (`getArgments`, computed by the external
model for the escape character of the run). -/
structure Instruction where
  keyword : String
  instruction : String
  textContent : String
  instructionRange : Range
  args : List Argument
deriving DecidableEq, Repr

/-- Modelled from the spec: the line-0 directive of the document (§4.1):
lowercased name, value, and the name/value/full ranges. -/
structure Directive where
  directive : String
  value : String
  nameRange : Range
  valueRange : Range
  range : Range
deriving DecidableEq, Repr

/-- Modelled from the spec: the parsed document handed to `validate`. -/
structure Dockerfile where
  directive : Option Directive
  instructions : List Instruction
deriving DecidableEq, Repr

/-- `DIRECTIVE_ESCAPE` of the external `docker` module. -/
def DIRECTIVE_ESCAPE : String := "escape"

/-! ## Escape-directive resolution (`parseDirective`) -/

structure DirectiveParseResult where
  problems : List Diagnostic
  escape : Char
  dc : Nat
deriving DecidableEq, Repr

/-- `parseDirective` of the source: resolves the escape character and the
offset where the structural scan begins, flagging unknown directive names and
invalid escape values. -/
def parseDirective (text : List Char) (drct : Option Directive) : DirectiveParseResult :=
  match drct with
  | none => ⟨[], '\\', 0⟩
  | some directive =>
    let directiveName := directive.directive
    let value := directive.value
    let problems :=
      if directiveName ≠ DIRECTIVE_ESCAPE then
        [createUnknownDirective text (offsetAt text directive.nameRange.start)
          (offsetAt text directive.nameRange.stop) directiveName]
      else if value ≠ "\\" ∧ value ≠ "`" ∧ value ≠ "" then
        [createInvalidEscapeDirective text (offsetAt text directive.valueRange.start)
          (offsetAt text directive.valueRange.stop) value]
      else []
    ⟨problems,
     if value = "\\" then '\\' else if value = "`" then '\u0060' else '\\',
     offsetAt text directive.range.stop⟩

/-! ## Argument-presence check (`checkArguments`) -/

/-- The scanning loop of `checkArguments`, over the text following the
keyword.  `true` means no argument content was found (`missing` stayed set).
Skipping an escape + line-break pair mirrors the source's `i++` followed by
the loop increment. -/
def checkArgsMissing (escapeChar : Char) : List Char → Bool
  | [] => true
  | c :: rest =>
    if isWhitespace c then checkArgsMissing escapeChar rest
    else if c = escapeChar then
      if rest.head? = some '\r' ∨ rest.head? = some '\n' then
        checkArgsMissing escapeChar rest.tail
      else false
    else false
termination_by l => l.length
decreasing_by all_goals (simp [List.length_tail]; try omega)

/-- `checkArguments` of the source: returns the emitted diagnostics and
whether the keyword-specific argument validators may run. -/
def checkArguments (text : List Char) (escapeChar : Char) (ins : Instruction) :
    List Diagnostic × Bool :=
  let args := ins.textContent.toList.drop ins.instruction.length
  if checkArgsMissing escapeChar args then
    ([createMissingArgument text (offsetAt text ins.instructionRange.start)
      (offsetAt text ins.instructionRange.stop)], false)
  else ([], true)

/-! ## Single/multi-argument validators (`checkSingleArgument`) -/

/-- Stands in for the optional `createDiagnostic` argument that the source
omits for FROM/WORKDIR/USER; those predicates are constantly true, so the
source never invokes it. -/
def undefinedCreateDiagnostic (text : List Char) : Int → Int → String → Diagnostic :=
  fun start stop _ => createError text start stop none none

/-- The `singleOnly = false` loop of `checkSingleArgument`: every token is
validated independently. -/
def checkEveryArgument (text : List Char) (validArg : String → Bool)
    (createDiag : Int → Int → String → Diagnostic) : List Argument → List Diagnostic
  | [] => []
  | arg :: rest =>
    (if ¬validArg arg.value then
      [createDiag (offsetAt text arg.range.start) (offsetAt text arg.range.stop) arg.value]
     else [])
      ++ checkEveryArgument text validArg createDiag rest

/-- `checkSingleArgument` of the source.  In the `singleOnly` branch the
source calls `createDiagnostic` without a third argument; the only consumer
(the stop-signal factory) ignores it, so the first token's value is passed. -/
def checkSingleArgument (text : List Char) (args : List Argument) (singleOnly : Bool)
    (validArg : String → Bool) (createDiag : Int → Int → String → Diagnostic) :
    List Diagnostic :=
  match args with
  | [] => []
  | arg0 :: rest =>
    if singleOnly then
      (if ¬validArg arg0.value then
        [createDiag (offsetAt text arg0.range.start) (offsetAt text arg0.range.stop)
          arg0.value]
       else [])
        ++ (match rest with
            | arg1 :: _ =>
              [createExtraArgument text (offsetAt text arg1.range.start)
                (offsetAt text arg1.range.stop)]
            | [] => [])
    else checkEveryArgument text validArg createDiag (arg0 :: rest)

/-- The STOPSIGNAL predicate: starts with "SIG", or all ASCII digits. -/
def stopsignalDigits : List Char → Bool
  | [] => true
  | c :: rest => if '0' > c ∨ '9' < c then false else stopsignalDigits rest

def stopsignalValid (argument : String) : Bool :=
  -- `argument.indexOf("SIG") === 0`: the argument starts with "SIG"
  if "SIG".toList.isPrefixOf argument.toList then true
  else stopsignalDigits argument.toList

/-- The EXPOSE predicate's character loop: fails on a character that is
neither `-` nor an ASCII digit. -/
def exposeChars : List Char → Bool
  | [] => true
  | c :: rest => if c ≠ '-' ∧ ('0' > c ∨ '9' < c) then false else exposeChars rest

/-- The EXPOSE predicate: digits and `-` only, and the first and last
characters are not `-` (JavaScript's `charAt` yields the empty string on an
empty argument, so both boundary checks pass there). -/
def exposeValid (argument : String) : Bool :=
  if exposeChars argument.toList then
    ¬(charAt argument.toList 0 = some '-')
      ∧ ¬(charAt argument.toList (argument.length - 1) = some '-')
  else false

/-! ## Document-model pass (the instruction loop of `validate`) -/

/-- One iteration of `validate`'s instruction loop: unknown-keyword and
casing checks, the MAINTAINER deprecation, the argument-presence check and,
when it passes, the keyword-specific validators. -/
def instructionDiagnostics (settings : ValidatorSettings) (keywords : List String)
    (escape : Char) (text : List Char) (ins : Instruction) : List Diagnostic :=
  let keyword := ins.keyword
  if ¬keywords.contains keyword then
    [createUnknownInstruction text (offsetAt text ins.instructionRange.start)
      (offsetAt text ins.instructionRange.stop) keyword]
  else if keyword ≠ ins.instruction then
    [createUppercaseInstruction text (offsetAt text ins.instructionRange.start)
      (offsetAt text ins.instructionRange.stop)]
  else
    let maintainerDiags :=
      if keyword = "MAINTAINER" then
        match createMaintainerDeprecated settings text
          (offsetAt text ins.instructionRange.start)
          (offsetAt text ins.instructionRange.start) with
        | some d => [d]
        | none => []
      else []
    let ca := checkArguments text escape ins
    maintainerDiags ++ ca.1 ++
      (if ca.2 then
        if keyword = "FROM" ∨ keyword = "WORKDIR" ∨ keyword = "USER" then
          checkSingleArgument text ins.args true (fun _ => true)
            (undefinedCreateDiagnostic text)
        else if keyword = "STOPSIGNAL" then
          checkSingleArgument text ins.args true stopsignalValid
            (fun start stop _ => createInvalidStopSignal text start stop)
        else if keyword = "EXPOSE" then
          checkSingleArgument text ins.args false exposeValid
            (fun start stop port => createInvalidPort text start stop port)
        else []
       else [])

/-! ## The structural scanner and the JSON-array validator

The raw-text loops of the source walk the document with an index `i` and read
`text.charAt(i)`, `text.charAt(i + 1)`, ….  They are embedded structurally on
the suffix of the text starting at `i`, with the absolute index carried along
for diagnostics and resume offsets; reading the head of the suffix is
`charAt text i`, its second element `charAt text (i + 1)`, and so on. -/

/-- `shouldSkipNewline` of the source: at an escape character that is not the
last character of the file and is directly followed by a line break. -/
def shouldSkipNewline (text : List Char) (offset : Nat) (escape : Char) : Bool :=
  charAt text offset = some escape ∧ offset ≠ text.length - 1 ∧
    (charAt text (offset + 1) = some '\r' ∨ charAt text (offset + 1) = some '\n')

/-- The suffix form of `shouldSkipNewline`'s lookahead: the next character
exists and is a line break (which also means the current character is not the
last one of the file). -/
def linebreakHead (rest : List Char) : Bool :=
  rest.head? = some '\r' ∨ rest.head? = some '\n'

/-- The mutable state of `parseJSON`'s scanning loop.  `ended` stands for the
source's `end` variable (a Lean keyword); `last` starts at `-1`. -/
structure JSONState where
  inString : Bool
  ended : Bool
  last : Int
  expectComma : Bool
  flagged : Bool
deriving DecidableEq, Repr

def JSONState.initial : JSONState :=
  ⟨false, false, -1, false, false⟩

/-- The character loop of `parseJSON` over the text following `[`:
`i` is the absolute index of the head of the suffix.  Returns the diagnostics
pushed by this invocation and the offset the source returns. -/
def parseJSONLoop (escape : Char) (text : List Char) :
    List Char → Nat → JSONState → List Diagnostic × Nat
  | [], _, st =>
    -- end of the for loop: a final check, then `return last + 1`
    if ¬st.flagged ∧ (st.inString ∨ ¬st.ended) then
      ([createUnexpectedToken text st.last (st.last + 1)], (st.last + 1).toNat)
    else ([], (st.last + 1).toNat)
  | c :: rest, i, st =>
    -- escapes are only handled outside of JSON strings
    if ¬st.inString ∧ c = escape ∧ linebreakHead rest then
      -- skip the escape and the line break; a \r\n pair is skipped whole
      if rest.head? = some '\r' ∧ rest.tail.head? = some '\n' then
        parseJSONLoop escape text rest.tail.tail (i + 3) st
      else parseJSONLoop escape text rest.tail (i + 2) st
    else if c = '"' then
      if st.expectComma ∧ ¬st.flagged then
        ([createUnexpectedToken text i (i + 1)], i)
      else
        -- inString = !inString; last = i; expectComma = !inString (the
        -- freshly toggled value)
        parseJSONLoop escape text rest (i + 1)
          { st with inString := !st.inString, last := i,
                    expectComma := !(!st.inString) }
    else if c = ' ' ∨ c = '\t' then
      parseJSONLoop escape text rest (i + 1) st
    else if c = ']' then
      parseJSONLoop escape text rest (i + 1)
        { st with ended := if st.inString then st.ended else true, last := i }
    else if c = '\r' ∨ c = '\n' then
      if ¬st.ended ∧ ¬st.flagged then
        ([createUnexpectedToken text st.last (st.last + 1)], i)
      else ([], i)
    else if c = ',' then
      parseJSONLoop escape text rest (i + 1)
        { st with expectComma := if st.expectComma then false else st.expectComma, last := i }
    else
      if ¬st.inString ∧ ¬st.flagged then
        let r := parseJSONLoop escape text rest (i + 1) { st with last := i, flagged := true }
        (createUnexpectedToken text i (i + 1) :: r.1, r.2)
      else parseJSONLoop escape text rest (i + 1) { st with last := i }
termination_by l _ _ => l.length
decreasing_by all_goals (simp [List.length_tail]; try omega)

/-- `parseJSON` of the source, validating the array body after the `[` at
`offset`. -/
def parseJSON (escape : Char) (offset : Nat) (text : List Char) :
    List Diagnostic × Nat :=
  parseJSONLoop escape text (text.drop (offset + 1)) (offset + 1) JSONState.initial

/-- The scanning loop of `parseVOLUME`: skip whitespace and continuations; a
line break means shell form, a `[` before any other content enters the JSON
validator, any other content abandons JSON form for this line. -/
def parseVOLUMELoop (escape : Char) (text : List Char) :
    List Char → Nat → Bool → List Diagnostic × Nat
  | [], _, _ => ([], text.length)
  | c :: rest, i, json =>
    if c = escape ∧ linebreakHead rest then
      if rest.head? = some '\r' ∧ rest.tail.head? = some '\n' then
        parseVOLUMELoop escape text rest.tail.tail (i + 3) json
      else parseVOLUMELoop escape text rest.tail (i + 2) json
    else if c = '\r' ∨ c = '\n' then ([], i)
    else if c = '[' ∧ json then parseJSON escape i text
    else if c ≠ ' ' ∧ c ≠ '\t' then parseVOLUMELoop escape text rest (i + 1) false
    else parseVOLUMELoop escape text rest (i + 1) json
termination_by l _ _ => l.length
decreasing_by all_goals (simp [List.length_tail]; try omega)

/-- `parseVOLUME` of the source.  `lineStartIdx` mirrors the source's unused
`lineStart` parameter; `offset` is the index of the whitespace that ended the
VOLUME keyword. -/
def parseVOLUME (escape : Char) (lineStartIdx offset : Nat) (text : List Char) :
    List Diagnostic × Nat :=
  let _ := lineStartIdx
  parseVOLUMELoop escape text (text.drop (offset + 1)) (offset + 1) true

/-- The comment skip of the scanner: index of the first line break at or
after `j`, if any. -/
def findLineBreak : List Char → Nat → Option Nat
  | [], _ => none
  | c :: rest, j => if c = '\r' ∨ c = '\n' then some j else findLineBreak rest (j + 1)

/-- The skip-to-line-break loop used for the MAINTAINER-class keywords and
for unrecognized words: a continuation skips the escape character and one
line-break character; the first remaining line break is returned, `none` at
end of text. -/
def skipNewlinesMF (escape : Char) : List Char → Nat → Option Nat
  | [], _ => none
  | c :: rest, k =>
    if c = escape ∧ linebreakHead rest then skipNewlinesMF escape rest.tail (k + 2)
    else if c = '\r' ∨ c = '\n' then some k
    else skipNewlinesMF escape rest (k + 1)
termination_by l _ => l.length
decreasing_by all_goals (simp [List.length_tail]; try omega)

/-- The skip loop of the recognized-keyword branch: like `skipNewlinesMF`,
but a `\r\n` pair after the escape is skipped whole.  (The source also keeps
a `check` flag here that is written and never read.) -/
def skipNewlinesKnown (escape : Char) : List Char → Nat → Option Nat
  | [], _ => none
  | c :: rest, k =>
    if c = escape ∧ linebreakHead rest then
      if rest.head? = some '\r' ∧ rest.tail.head? = some '\n' then
        skipNewlinesKnown escape rest.tail.tail (k + 3)
      else skipNewlinesKnown escape rest.tail (k + 2)
    else if c = '\r' ∨ c = '\n' then some k
    else skipNewlinesKnown escape rest (k + 1)
termination_by l _ => l.length
decreasing_by all_goals (simp [List.length_tail]; try omega)

/-- Result of the word-accumulation loop of the scanner. -/
inductive WordStep where
  /-- `return problems`: the loop reached the last character of the file. -/
  | halt
  /-- A word was accumulated and a terminating whitespace found at absolute
  index `j`; the scanner dispatches on the uppercased word. -/
  | dispatch (word : List Char) (j : Nat)
  /-- The inner `for` loop ran out (unreachable in the source; the outer loop
  would continue at `i + 1`). -/
  | fallthrough
deriving DecidableEq, Repr

/-- The word-accumulation loop of the scanner: splice the word across
escape + line-break continuations, stop at whitespace or at the last
character of the file. -/
def scanWordLoop (escape : Char) : List Char → Nat → List Char → WordStep
  | [], _, _ => WordStep.fallthrough
  | c :: rest, j, acc =>
    if c = escape ∧ linebreakHead rest then
      if rest.head? = some '\r' ∧ rest.tail.head? = some '\n' then
        if rest.tail.tail.isEmpty then WordStep.halt
        else scanWordLoop escape rest.tail.tail (j + 3) acc
      else
        if rest.tail.isEmpty then WordStep.halt
        else scanWordLoop escape rest.tail (j + 2) acc
    else if isWhitespace c then
      if rest.isEmpty then WordStep.halt else WordStep.dispatch acc j
    else if rest.isEmpty then
      -- j = text.length - 1 and not whitespace: the word would be extended by
      -- c, but the loop then returns the problems unconditionally
      WordStep.halt
    else scanWordLoop escape rest (j + 1) (acc ++ [c])
termination_by l _ _ => l.length
decreasing_by all_goals (simp [List.length_tail]; try omega)

/-- The keywords with the no-further-check branch in the scanner's switch. -/
def simpleKeywords : List String :=
  ["MAINTAINER", "FROM", "EXPOSE", "STOPSIGNAL", "USER", "WORKDIR"]

/-- The `lineCheck` loop of `validate`: the structural scanner over the raw
text from the resolved body offset.  The source's loop does not terminate on
all inputs (a VOLUME `[` with nothing significant before the end of the file
makes `parseJSON` return offset 0, sending the scan back to the top of the
file), so the embedding consumes one unit of `fuel` per iteration and yields
no further diagnostics when it runs out. -/
def scanLoop (keywords : List String) (escape : Char) (text : List Char) :
    Nat → Nat → List Diagnostic
  | 0, _ => []
  | fuel + 1, i =>
    match charAt text i with
    | none => []
    | some c =>
      if isWhitespace c then scanLoop keywords escape text fuel (i + 1)
      else if c = '#' then
        match findLineBreak (text.drop (i + 1)) (i + 1) with
        | some j => scanLoop keywords escape text fuel (j + 1)
        | none => []
      else
        match scanWordLoop escape (text.drop (i + 1)) (i + 1) [c] with
        | WordStep.halt => []
        | WordStep.fallthrough => scanLoop keywords escape text fuel (i + 1)
        | WordStep.dispatch word j =>
          -- instruction.toUpperCase(): the word uppercased character-wise
          let uppercaseInstruction := String.mk (word.map Char.toUpper)
          if simpleKeywords.contains uppercaseInstruction then
            match skipNewlinesMF escape (text.drop (j + 1)) (j + 1) with
            | some k => scanLoop keywords escape text fuel (k + 1)
            | none => []
          else if uppercaseInstruction = "VOLUME" then
            let r := parseVOLUME escape i j text
            r.1 ++ scanLoop keywords escape text fuel (r.2 + 1)
          else if ¬keywords.contains uppercaseInstruction then
            match skipNewlinesMF escape (text.drop (j + 1)) (j + 1) with
            | some k => scanLoop keywords escape text fuel (k + 1)
            | none => []
          else
            match skipNewlinesKnown escape (text.drop (j + 1)) (j + 1) with
            | some k => scanLoop keywords escape text fuel (k + 1)
            | none => []

/-! ## `validate` -/

/-- `validate` of the source: directive resolution, the no-source-image
check, the document-model pass over the instruction list, then the structural
scanner from the resolved body offset.  Diagnostics are accumulated in this
order (§5). -/
def validate (settings : ValidatorSettings) (keywords : List String)
    (text : List Char) (dockerfile : Dockerfile) (fuel : Nat) : List Diagnostic :=
  let parsed := parseDirective text dockerfile.directive
  let noSource :=
    match dockerfile.instructions with
    | [] => [createNoSourceImage text 0 0]
    | ins0 :: _ =>
      if ins0.keyword ≠ "FROM" then
        [createNoSourceImage text (offsetAt text ins0.instructionRange.start)
          (offsetAt text ins0.instructionRange.stop)]
      else []
  parsed.problems ++ noSource
    ++ (dockerfile.instructions.map
        (instructionDiagnostics settings keywords parsed.escape text)).flatten
    ++ scanLoop keywords parsed.escape text fuel parsed.dc

/-! ## Claim C2: escape-directive resolution -/

/-- C2: for a document with a line-0 directive whose name is not "escape",
`parseDirective` emits exactly one UNKNOWN_DIRECTIVE Error at the
directive-name range, and still resolves the escape character from the
directive's value when that value is exactly a backslash or a backtick,
otherwise to backslash; for a directive named "escape" whose value is not a
backslash, a backtick or the empty string, it emits exactly one
INVALID_ESCAPE_DIRECTIVE Error at the value range and the escape falls back
to backslash. -/
theorem claimC2 (text : List Char) (d : Directive) :
    (d.directive ≠ "escape" →
      (parseDirective text (some d)).problems =
        [createUnknownDirective text (offsetAt text d.nameRange.start)
          (offsetAt text d.nameRange.stop) d.directive] ∧
      (createUnknownDirective text (offsetAt text d.nameRange.start)
        (offsetAt text d.nameRange.stop) d.directive).severity =
          DiagnosticSeverity.Error ∧
      (createUnknownDirective text (offsetAt text d.nameRange.start)
        (offsetAt text d.nameRange.stop) d.directive).code =
          ValidationCode.UNKNOWN_DIRECTIVE ∧
      (d.value = "\\" → (parseDirective text (some d)).escape = '\\') ∧
      (d.value = "`" → (parseDirective text (some d)).escape = '`') ∧
      (d.value ≠ "\\" → d.value ≠ "`" →
        (parseDirective text (some d)).escape = '\\')) ∧
    (d.directive = "escape" → d.value ≠ "\\" → d.value ≠ "`" → d.value ≠ "" →
      (parseDirective text (some d)).problems =
        [createInvalidEscapeDirective text (offsetAt text d.valueRange.start)
          (offsetAt text d.valueRange.stop) d.value] ∧
      (createInvalidEscapeDirective text (offsetAt text d.valueRange.start)
        (offsetAt text d.valueRange.stop) d.value).severity =
          DiagnosticSeverity.Error ∧
      (createInvalidEscapeDirective text (offsetAt text d.valueRange.start)
        (offsetAt text d.valueRange.stop) d.value).code =
          ValidationCode.INVALID_ESCAPE_DIRECTIVE ∧
      (parseDirective text (some d)).escape = '\\') := by
  constructor
  · intro hname
    refine ⟨?_, rfl, rfl, ?_, ?_, ?_⟩
    · simp [parseDirective, DIRECTIVE_ESCAPE, hname]
    · intro hv; simp [parseDirective, hv]
    · intro hv; simp [parseDirective, hv]
    · intro hv1 hv2; simp [parseDirective, hv1, hv2]
  · intro hname hv1 hv2 hv3
    refine ⟨?_, rfl, rfl, ?_⟩
    · simp [parseDirective, DIRECTIVE_ESCAPE, hname, hv1, hv2, hv3]
    · simp [parseDirective, hv1, hv2]

/-- Witness for C2 at concrete directives: an unknown name keeps the
backtick escape value, and an invalid escape value is flagged. -/
theorem claimC2_witness :
    ((parseDirective "# syntax=abc".toList
        (some ⟨"syntax", "`", ⟨⟨0, 2⟩, ⟨0, 8⟩⟩, ⟨⟨0, 9⟩, ⟨0, 10⟩⟩, ⟨⟨0, 0⟩, ⟨0, 12⟩⟩⟩)).problems =
      [createUnknownDirective "# syntax=abc".toList 2 8 "syntax"] ∧
     (parseDirective "# syntax=abc".toList
        (some ⟨"syntax", "`", ⟨⟨0, 2⟩, ⟨0, 8⟩⟩, ⟨⟨0, 9⟩, ⟨0, 10⟩⟩, ⟨⟨0, 0⟩, ⟨0, 12⟩⟩⟩)).escape =
      '`') ∧
    ((parseDirective "# escape=x".toList
        (some ⟨"escape", "x", ⟨⟨0, 2⟩, ⟨0, 8⟩⟩, ⟨⟨0, 9⟩, ⟨0, 10⟩⟩, ⟨⟨0, 0⟩, ⟨0, 10⟩⟩⟩)).problems =
      [createInvalidEscapeDirective "# escape=x".toList 9 10 "x"] ∧
     (parseDirective "# escape=x".toList
        (some ⟨"escape", "x", ⟨⟨0, 2⟩, ⟨0, 8⟩⟩, ⟨⟨0, 9⟩, ⟨0, 10⟩⟩, ⟨⟨0, 0⟩, ⟨0, 10⟩⟩⟩)).escape =
      '\\') := by
  constructor
  · have h := (claimC2 "# syntax=abc".toList
      ⟨"syntax", "`", ⟨⟨0, 2⟩, ⟨0, 8⟩⟩, ⟨⟨0, 9⟩, ⟨0, 10⟩⟩, ⟨⟨0, 0⟩, ⟨0, 12⟩⟩⟩).1
      (by decide)
    refine ⟨?_, h.2.2.2.2.1 rfl⟩
    have h1 := h.1
    rw [h1]
    norm_num [offsetAt, lineOffsets, lineOffsetsAux]
  · have h := (claimC2 "# escape=x".toList
      ⟨"escape", "x", ⟨⟨0, 2⟩, ⟨0, 8⟩⟩, ⟨⟨0, 9⟩, ⟨0, 10⟩⟩, ⟨⟨0, 0⟩, ⟨0, 10⟩⟩⟩).2
      rfl (by decide) (by decide) (by decide)
    refine ⟨?_, h.2.2.2⟩
    have h1 := h.1
    rw [h1]
    norm_num [offsetAt, lineOffsets, lineOffsetsAux]

/-! ## Claim C3: the JSON-array validator reports at most one token -/

/-- Once `flagged` is set, no branch of the `parseJSON` loop pushes another
diagnostic. -/
theorem parseJSONLoop_flagged (escape : Char) (text : List Char)
    (l : List Char) (i : Nat) (st : JSONState) :
    st.flagged = true → (parseJSONLoop escape text l i st).1 = [] := by
  induction l, i, st using parseJSONLoop.induct escape text <;>
    intro hf <;> rw [parseJSONLoop] <;> (repeat' split) <;> simp_all

/-- Every invocation of the `parseJSON` loop pushes at most one diagnostic:
the flagging branch suppresses all later pushes, and the returning branches
push at most one. -/
theorem parseJSONLoop_length_le_one (escape : Char) (text : List Char)
    (l : List Char) (i : Nat) (st : JSONState) :
    (parseJSONLoop escape text l i st).1.length ≤ 1 := by
  induction l, i, st using parseJSONLoop.induct escape text <;>
    rw [parseJSONLoop] <;> (repeat' split) <;> simp_all <;>
    exact parseJSONLoop_flagged escape text _ _ _ rfl

/-- C3: each invocation of the JSON-array validator reports at most one
UNEXPECTED_TOKEN; a quote seen while `expectComma` is set and nothing has
been flagged yields one UNEXPECTED_TOKEN at that quote's offset and ends the
validation of the array at that offset; any other disallowed character
outside a string yields one UNEXPECTED_TOKEN at its offset, and no further
stray characters on the line are reported. -/
theorem claimC3 (escape : Char) (text : List Char) :
    (∀ offset : Nat, (parseJSON escape offset text).1.length ≤ 1) ∧
    (∀ (l : List Char) (i : Nat) (st : JSONState),
      escape ≠ '"' → st.expectComma = true → st.flagged = false →
      parseJSONLoop escape text ('"' :: l) i st =
        ([createUnexpectedToken text i (i + 1)], i)) ∧
    (∀ (c : Char) (l : List Char) (i : Nat) (st : JSONState),
      st.inString = false → st.flagged = false →
      c ≠ '"' → c ≠ ' ' → c ≠ '\t' → c ≠ ']' → c ≠ '\r' → c ≠ '\n' → c ≠ ',' →
      ¬(c = escape ∧ linebreakHead l = true) →
      (parseJSONLoop escape text (c :: l) i st).1 =
        [createUnexpectedToken text i (i + 1)]) := by
  refine ⟨fun offset => parseJSONLoop_length_le_one escape text _ _ _, ?_, ?_⟩
  · intro l i st hq hc hf
    rw [parseJSONLoop]
    simp [hq.symm, hc, hf]
  · intro c l i st hin hf h1 h2 h3 h4 h5 h6 h7 hskip
    obtain ⟨si, se, sl, sc, sf⟩ := st
    simp only at hin hf
    subst hin hf
    have hz := parseJSONLoop_flagged escape text l (i + 1)
      ⟨false, se, (i : Int), sc, true⟩ rfl
    rw [parseJSONLoop]
    simp [hskip, h1, h2, h3, h4, h5, h6, h7, hz]

/-- Witness for C3: a concrete array with a missing comma, a concrete quote
step and a concrete unquoted-word step. -/
theorem claimC3_witness :
    (parseJSON '\\' 0 "[\"a\" \"b\"]".toList).1.length ≤ 1 ∧
    parseJSONLoop '\\' "x".toList ['"'] 7 ⟨false, false, -1, true, false⟩ =
      ([createUnexpectedToken "x".toList 7 8], 7) ∧
    (parseJSONLoop '\\' "x".toList ['a'] 4 ⟨false, false, -1, false, false⟩).1 =
      [createUnexpectedToken "x".toList 4 5] := by
  refine ⟨(claimC3 '\\' "[\"a\" \"b\"]".toList).1 0, ?_, ?_⟩
  · exact (claimC3 '\\' "x".toList).2.1 [] 7 ⟨false, false, -1, true, false⟩
      (by decide) rfl rfl
  · exact (claimC3 '\\' "x".toList).2.2 'a' [] 4 ⟨false, false, -1, false, false⟩
      rfl rfl (by decide) (by decide) (by decide) (by decide) (by decide)
      (by decide) (by decide) (by decide)

/-! ## Claim C4: continuations inside JSON strings -/

/-- Counterexample to C4.  In `VOLUME ["a\<LF>"]` the escape + line-feed pair
sits inside the double-quoted string.  Were it spliced out, the array would
validate cleanly, exactly as `["a"]` does (second conjunct).  Instead the
validator treats the escape as an ordinary significant character and the line
feed as the end of the array, reporting an UNEXPECTED_TOKEN at the escape
character (offset 3) and stopping at the line feed (offset 4). -/
theorem claimC4_counterexample :
    parseJSON '\\' 0 "[\"a\\\n\"]".toList =
      ([createUnexpectedToken "[\"a\\\n\"]".toList 3 4], 4) ∧
    parseJSON '\\' 0 "[\"a\"]".toList = ([], 5) := by
  constructor <;>
    simp [parseJSON, parseJSONLoop, JSONState.initial, linebreakHead, isWhitespace]

/-- C4 (amended): the `parseJSON` loop honors escape + line-break
continuations only when `inString` is false; at a position inside a
double-quoted string the escape character is processed by the ordinary
character switch instead (it becomes the `last` significant character and the
following line break ends the array's validation, reporting the
UNEXPECTED_TOKEN at the escape when nothing was flagged and the array had not
been closed). -/
theorem claimC4 (escape : Char) (text : List Char) (rest : List Char) (i : Nat)
    (st : JSONState) :
    (st.inString = false → linebreakHead rest = true →
      (rest.head? = some '\r' ∧ rest.tail.head? = some '\n' →
        parseJSONLoop escape text (escape :: rest) i st =
          parseJSONLoop escape text rest.tail.tail (i + 3) st) ∧
      (¬(rest.head? = some '\r' ∧ rest.tail.head? = some '\n') →
        parseJSONLoop escape text (escape :: rest) i st =
          parseJSONLoop escape text rest.tail (i + 2) st)) ∧
    (st.inString = true → st.flagged = false → st.ended = false →
      escape ≠ '"' → escape ≠ ' ' → escape ≠ '\t' → escape ≠ ']' →
      escape ≠ '\r' → escape ≠ '\n' → escape ≠ ',' →
      parseJSONLoop escape text (escape :: '\n' :: rest) i st =
        ([createUnexpectedToken text i (i + 1)], i + 1)) := by
  constructor
  · intro hin hlb
    constructor
    · intro hcrlf
      rw [parseJSONLoop]
      simp [hin, hlb, hcrlf]
    · intro hcrlf
      rw [parseJSONLoop]
      simp [hin, hlb]
      intro h1 h2
      exact absurd ⟨h1, by simpa using h2⟩ hcrlf
  · intro hin hf he h1 h2 h3 h4 h5 h6 h7
    obtain ⟨si, se, sl, sc, sf⟩ := st
    simp only at hin hf he
    subst hin hf he
    rw [parseJSONLoop]
    simp [h1, h2, h3, h4, h5, h6, h7, linebreakHead]
    rw [parseJSONLoop]
    simp

/-- Witness for the amended C4 at concrete inputs: a continuation outside a
string is skipped, and the same escape + line feed inside a string produces
the UNEXPECTED_TOKEN step. -/
theorem claimC4_witness :
    parseJSONLoop '\\' "ab".toList ['\\', '\n', 'x'] 5 ⟨false, false, -1, false, false⟩ =
      parseJSONLoop '\\' "ab".toList ['x'] 7 ⟨false, false, -1, false, false⟩ ∧
    parseJSONLoop '\\' "ab".toList ['\\', '\n', 'x'] 5 ⟨true, false, -1, false, false⟩ =
      ([createUnexpectedToken "ab".toList 5 6], 6) := by
  constructor
  · exact ((claimC4 '\\' "ab".toList ['\n', 'x'] 5
      ⟨false, false, -1, false, false⟩).1 rfl (by decide)).2 (by decide)
  · exact (claimC4 '\\' "ab".toList ['x'] 5
      ⟨true, false, -1, false, false⟩).2 rfl rfl rfl (by decide) (by decide)
      (by decide) (by decide) (by decide) (by decide) (by decide)

/-! ## Claim C6: the argument-presence check -/

/-- Counterexample to C6.  The claim says a continuation that reaches
end-of-text yields "argument found".  For `FROM \<LF>` the text after the
keyword is a space followed by an escape + line feed continuation that
reaches the end of the text; the source's loop skips it, finds no content,
and emits MISSING_ARGUMENT over the instruction range (returning `false`, so
the keyword-specific validators are also skipped). -/
theorem claimC6_counterexample :
    checkArguments "FROM \\\n".toList '\\'
      ⟨"FROM", "FROM", "FROM \\\n", ⟨⟨0, 0⟩, ⟨0, 4⟩⟩, []⟩ =
      ([createMissingArgument "FROM \\\n".toList 0 4], false) := by
  simp [checkArguments, checkArgsMissing, isWhitespace, offsetAt, lineOffsets,
    lineOffsetsAux, String.length]

/-- C6 (amended): in the argument-presence scan, whitespace is skipped; an
escape character immediately followed by a line break is skipped as a
continuation and does not count as content, and a continuation that reaches
end-of-text leaves the argument missing (MISSING_ARGUMENT is emitted); any
other non-whitespace character, or an escape character not followed by a
line break, counts as content.  Exactly when no content is found, one
MISSING_ARGUMENT spanning the instruction range is emitted and the
keyword-specific argument validators are not run. -/
theorem claimC6 (e : Char) (he : isWhitespace e = false) :
    (∀ (c : Char) (l : List Char), isWhitespace c = true →
      checkArgsMissing e (c :: l) = checkArgsMissing e l) ∧
    (∀ l : List Char, l.head? = some '\r' ∨ l.head? = some '\n' →
      checkArgsMissing e (e :: l) = checkArgsMissing e l.tail) ∧
    (∀ nl : Char, nl = '\r' ∨ nl = '\n' → checkArgsMissing e [e, nl] = true) ∧
    (∀ (c : Char) (l : List Char), isWhitespace c = false → c ≠ e →
      checkArgsMissing e (c :: l) = false) ∧
    (∀ l : List Char, l.head? ≠ some '\r' → l.head? ≠ some '\n' →
      checkArgsMissing e (e :: l) = false) ∧
    (∀ (text : List Char) (ins : Instruction),
      checkArguments text e ins =
        (if checkArgsMissing e (ins.textContent.toList.drop ins.instruction.length)
         then ([createMissingArgument text (offsetAt text ins.instructionRange.start)
            (offsetAt text ins.instructionRange.stop)], false)
         else ([], true))) ∧
    (∀ (settings : ValidatorSettings) (keywords : List String) (text : List Char)
        (ins : Instruction),
      keywords.contains ins.keyword = true → ins.keyword = ins.instruction →
      ins.keyword ≠ "MAINTAINER" →
      checkArgsMissing e (ins.textContent.toList.drop ins.instruction.length) = true →
      instructionDiagnostics settings keywords e text ins =
        [createMissingArgument text (offsetAt text ins.instructionRange.start)
          (offsetAt text ins.instructionRange.stop)]) := by
  refine ⟨?_, ?_, ?_, ?_, ?_, ?_, ?_⟩
  · intro c l hc
    rw [checkArgsMissing]
    simp [hc]
  · intro l hl
    rcases hl with h | h <;> (rw [checkArgsMissing]; simp [he, h])
  · intro nl hnl
    rcases hnl with h | h <;> subst h <;>
      · rw [checkArgsMissing]
        simp [he, checkArgsMissing]
  · intro c l hc hne
    rw [checkArgsMissing]
    simp [hc, hne]
  · intro l h1 h2
    rw [checkArgsMissing]
    simp [he, h1, h2]
  · intro text ins
    rfl
  · intro settings keywords text ins hkw hcase hm hmiss
    obtain ⟨kw, inst, tc, r, argsl⟩ := ins
    simp only at hkw hcase hm hmiss ⊢
    subst hcase
    replace hkw : kw ∈ keywords := by simpa using hkw
    replace hmiss : checkArgsMissing e (List.drop kw.length tc.data) = true := by
      simpa [String.toList] using hmiss
    unfold instructionDiagnostics
    simp [hkw, hm, checkArguments, hmiss]

/-- Witness for the amended C6: `WORKDIR` followed only by whitespace and a
trailing continuation is missing its argument, and the whole per-instruction
check yields exactly the MISSING_ARGUMENT diagnostic. -/
theorem claimC6_witness :
    checkArgsMissing '\\' ['\\', '\n'] = true ∧
    instructionDiagnostics ⟨ValidationSeverity.WARNING⟩ ["WORKDIR"] '\\'
        "WORKDIR \\\n".toList
        ⟨"WORKDIR", "WORKDIR", "WORKDIR \\\n", ⟨⟨0, 0⟩, ⟨0, 7⟩⟩, []⟩ =
      [createMissingArgument "WORKDIR \\\n".toList 0 7] := by
  constructor
  · exact (claimC6 '\\' (by decide)).2.2.1 '\n' (Or.inr rfl)
  · have h := (claimC6 '\\' (by decide)).2.2.2.2.2.2 ⟨ValidationSeverity.WARNING⟩
      ["WORKDIR"] "WORKDIR \\\n".toList
      ⟨"WORKDIR", "WORKDIR", "WORKDIR \\\n", ⟨⟨0, 0⟩, ⟨0, 7⟩⟩, []⟩
      (by decide) rfl (by decide)
      (by simp [checkArgsMissing, isWhitespace, String.length])
    rw [h]
    norm_num [offsetAt, lineOffsets, lineOffsetsAux]

/-! ## Claim C7: single-argument mode -/

/-- Counterexample to C7.  For `STOPSIGNAL abc x` (two tokens, the first not
a valid stop signal) the claim asserts that exactly one EXTRA_ARGUMENT is
emitted at the second token's range "and no diagnostic is emitted for the
first token" — but the single-argument mode validates the first token with
the STOPSIGNAL predicate and emits INVALID_STOPSIGNAL at the first token's
range, in addition to the EXTRA_ARGUMENT at the second. -/
theorem claimC7_counterexample :
    instructionDiagnostics ⟨ValidationSeverity.WARNING⟩ ["STOPSIGNAL"] '\\'
      "STOPSIGNAL abc x".toList
      ⟨"STOPSIGNAL", "STOPSIGNAL", "STOPSIGNAL abc x", ⟨⟨0, 0⟩, ⟨0, 10⟩⟩,
       [⟨"abc", ⟨⟨0, 11⟩, ⟨0, 14⟩⟩⟩, ⟨"x", ⟨⟨0, 15⟩, ⟨0, 16⟩⟩⟩]⟩ =
    [createInvalidStopSignal "STOPSIGNAL abc x".toList 11 14,
     createExtraArgument "STOPSIGNAL abc x".toList 15 16] := by
  have hsv : stopsignalValid "abc" = false := by decide
  simp [instructionDiagnostics, checkArguments, checkArgsMissing, isWhitespace,
    String.length, checkSingleArgument, hsv, offsetAt, lineOffsets,
    lineOffsetsAux]

/-- C7 (amended): for a FROM, WORKDIR, USER or STOPSIGNAL instruction that
passes the argument-presence check, only the first token is validated; for
FROM/WORKDIR/USER the predicate always passes, so the first token produces no
diagnostic and the instruction's diagnostics are exactly one EXTRA_ARGUMENT
at the second token's range when more than one token exists (and nothing
otherwise); for STOPSIGNAL the diagnostics are the possible
INVALID_STOPSIGNAL at the first token's range followed by the same single
EXTRA_ARGUMENT at the second token's range when more than one token exists —
in particular no EXTRA_ARGUMENT is ever reported at the first token or at
tokens after the second. -/
theorem claimC7 (settings : ValidatorSettings) (keywords : List String)
    (escape : Char) (text : List Char) (ins : Instruction)
    (hkw : keywords.contains ins.keyword = true)
    (hcase : ins.keyword = ins.instruction)
    (hargs : checkArgsMissing escape
      (ins.textContent.toList.drop ins.instruction.length) = false) :
    ((ins.keyword = "FROM" ∨ ins.keyword = "WORKDIR" ∨ ins.keyword = "USER") →
      instructionDiagnostics settings keywords escape text ins =
        (match ins.args with
         | _ :: arg1 :: _ =>
           [createExtraArgument text (offsetAt text arg1.range.start)
             (offsetAt text arg1.range.stop)]
         | _ => [])) ∧
    (ins.keyword = "STOPSIGNAL" →
      instructionDiagnostics settings keywords escape text ins =
        (match ins.args with
         | arg0 :: _ =>
           if ¬stopsignalValid arg0.value then
             [createInvalidStopSignal text (offsetAt text arg0.range.start)
               (offsetAt text arg0.range.stop)]
           else []
         | [] => []) ++
        (match ins.args with
         | _ :: arg1 :: _ =>
           [createExtraArgument text (offsetAt text arg1.range.start)
             (offsetAt text arg1.range.stop)]
         | _ => [])) := by
  obtain ⟨kw, inst, tc, r, argsl⟩ := ins
  simp only at hkw hcase hargs ⊢
  subst hcase
  replace hkw : kw ∈ keywords := by simpa using hkw
  replace hargs : checkArgsMissing escape (List.drop kw.length tc.data) = false := by
    simpa [String.toList] using hargs
  constructor
  · intro hk
    have hnm : kw ≠ "MAINTAINER" := by rcases hk with h | h | h <;> simp [h]
    unfold instructionDiagnostics
    rcases hk with h | h | h <;> subst h <;>
      simp [hkw, hargs, checkArguments, checkSingleArgument] <;>
      (cases argsl with
       | nil => simp
       | cons a0 rest => cases rest <;> simp)
  · intro hk
    subst hk
    unfold instructionDiagnostics
    simp [hkw, hargs, checkArguments, checkSingleArgument]
    cases argsl with
    | nil => simp
    | cons a0 rest => cases rest <;> by_cases h : stopsignalValid a0.value <;> simp [h]

/-- Witness for the amended C7: `FROM node node2` yields exactly one
EXTRA_ARGUMENT at the second token's range. -/
theorem claimC7_witness :
    instructionDiagnostics ⟨ValidationSeverity.WARNING⟩ ["FROM"] '\\'
      "FROM node node2".toList
      ⟨"FROM", "FROM", "FROM node node2", ⟨⟨0, 0⟩, ⟨0, 4⟩⟩,
       [⟨"node", ⟨⟨0, 5⟩, ⟨0, 9⟩⟩⟩, ⟨"node2", ⟨⟨0, 10⟩, ⟨0, 15⟩⟩⟩]⟩ =
    [createExtraArgument "FROM node node2".toList 10 15] := by
  have h := (claimC7 ⟨ValidationSeverity.WARNING⟩ ["FROM"] '\\'
    "FROM node node2".toList
    ⟨"FROM", "FROM", "FROM node node2", ⟨⟨0, 0⟩, ⟨0, 4⟩⟩,
     [⟨"node", ⟨⟨0, 5⟩, ⟨0, 9⟩⟩⟩, ⟨"node2", ⟨⟨0, 10⟩, ⟨0, 15⟩⟩⟩]⟩
    (by decide) rfl
    (by simp [checkArgsMissing, isWhitespace, String.length])).1 (Or.inl rfl)
  rw [h]
  norm_num [offsetAt, lineOffsets, lineOffsetsAux]

/-! ## Claim C8: the EXPOSE validator -/

/-- The EXPOSE validity condition as the claim words it: every character is
an ASCII digit or a dash, and the first and last characters are not dashes. -/
def validPortSpec (s : String) : Prop :=
  (∀ c ∈ s.toList, c.isDigit ∨ c = '-') ∧
    s.toList.head? ≠ some '-' ∧ s.toList.getLast? ≠ some '-'

instance (s : String) : Decidable (validPortSpec s) := by
  unfold validPortSpec; infer_instance

/-- A character fails the EXPOSE loop's test exactly when it is neither a
dash nor an ASCII digit. -/
theorem exposeChar_iff (c : Char) : ¬('0' > c ∨ '9' < c) ↔ c.isDigit = true := by
  simp [Char.isDigit, ← Char.not_lt, Char.le_def, Char.lt_def]

/-- The character loop of the EXPOSE predicate accepts exactly the strings of
digits and dashes. -/
theorem exposeChars_iff (l : List Char) :
    exposeChars l = true ↔ ∀ c ∈ l, c.isDigit ∨ c = '-' := by
  induction l with
  | nil => simp [exposeChars]
  | cons c rest ih =>
    rw [exposeChars]
    by_cases h : c ≠ '-' ∧ ('0' > c ∨ '9' < c)
    · rw [if_pos h]
      constructor
      · intro hf; exact absurd hf (by simp)
      · intro hall
        rcases hall c (by simp) with hd | hd
        · exact absurd ((exposeChar_iff c).mpr hd) (fun hn => hn h.2)
        · exact absurd hd h.1
    · rw [if_neg h, ih]
      constructor
      · intro hall
        intro x hx
        rcases List.mem_cons.mp hx with rfl | hx
        · rcases Decidable.not_and_iff_or_not.mp h with h1 | h2
          · exact Or.inr (by simpa using h1)
          · exact Or.inl ((exposeChar_iff x).mp h2)
        · exact hall x hx
      · intro hall x hx; exact hall x (List.mem_cons_of_mem _ hx)

/-- The source's EXPOSE predicate agrees with the specification's wording. -/
theorem exposeValid_iff (s : String) : exposeValid s = true ↔ validPortSpec s := by
  unfold exposeValid validPortSpec
  by_cases h : exposeChars s.toList = true
  · rw [if_pos h]
    rw [exposeChars_iff] at h
    constructor
    · intro hb
      simp only [decide_eq_true_eq] at hb
      refine ⟨h, ?_, ?_⟩
      · simpa [charAt, List.get?_eq_getElem?, List.head?_eq_getElem?] using hb.1
      · simpa [charAt, List.get?_eq_getElem?, List.getLast?_eq_getElem?] using hb.2
    · intro hv
      simp only [decide_eq_true_eq]
      constructor
      · simpa [charAt, List.get?_eq_getElem?, List.head?_eq_getElem?] using hv.2.1
      · simpa [charAt, List.get?_eq_getElem?, List.getLast?_eq_getElem?] using hv.2.2
  · rw [if_neg h]
    rw [exposeChars_iff] at h
    constructor
    · intro hb; simp at hb
    · intro hv; exact absurd hv.1 h

/-- The multi-argument loop of `checkSingleArgument` is a `filterMap` of the
per-token diagnostic over the token list. -/
theorem checkEveryArgument_eq_filterMap (text : List Char) (validArg : String → Bool)
    (createDiag : Int → Int → String → Diagnostic) (l : List Argument) :
    checkEveryArgument text validArg createDiag l =
      l.filterMap (fun a =>
        if validArg a.value then none
        else some (createDiag (offsetAt text a.range.start)
          (offsetAt text a.range.stop) a.value)) := by
  induction l with
  | nil => simp [checkEveryArgument]
  | cons a rest ih =>
    rw [checkEveryArgument, ih]
    by_cases h : validArg a.value <;> simp [h]

/-- C8: for every EXPOSE instruction that passes the argument-presence
check, every argument token is validated independently; a token is valid
exactly when every character is an ASCII digit or a dash and its first and
last characters are not dashes, and each invalid token contributes exactly
one INVALID_PORT diagnostic citing that token at that token's range, valid
tokens contributing nothing. -/
theorem claimC8 (settings : ValidatorSettings) (keywords : List String)
    (escape : Char) (text : List Char) (ins : Instruction)
    (hkw : keywords.contains ins.keyword = true)
    (hname : ins.keyword = "EXPOSE")
    (hcase : ins.keyword = ins.instruction)
    (hargs : checkArgsMissing escape
      (ins.textContent.toList.drop ins.instruction.length) = false) :
    (∀ s : String, exposeValid s = true ↔ validPortSpec s) ∧
    instructionDiagnostics settings keywords escape text ins =
      ins.args.filterMap (fun a =>
        if validPortSpec a.value then none
        else some (createInvalidPort text (offsetAt text a.range.start)
          (offsetAt text a.range.stop) a.value)) := by
  refine ⟨exposeValid_iff, ?_⟩
  obtain ⟨kw, inst, tc, r, argsl⟩ := ins
  simp only at hkw hname hcase hargs ⊢
  subst hname
  subst hcase
  replace hkw : "EXPOSE" ∈ keywords := by simpa using hkw
  replace hargs : checkArgsMissing escape
      (List.drop "EXPOSE".length tc.data) = false := by
    simpa [String.toList] using hargs
  have hfun : (fun a : Argument =>
      if validPortSpec a.value then none
      else some (createInvalidPort text (offsetAt text a.range.start)
        (offsetAt text a.range.stop) a.value)) =
    (fun a : Argument =>
      if exposeValid a.value then none
      else some (createInvalidPort text (offsetAt text a.range.start)
        (offsetAt text a.range.stop) a.value)) := by
    funext a
    by_cases h : exposeValid a.value = true
    · simp [h, (exposeValid_iff a.value).mp h]
    · have : ¬validPortSpec a.value := fun hc => h ((exposeValid_iff a.value).mpr hc)
      simp [h, this]
  rw [hfun]
  cases argsl with
  | nil =>
    simp [instructionDiagnostics, hkw, hargs, checkArguments,
      checkSingleArgument, String.toList]
  | cons a0 rest =>
    simp [instructionDiagnostics, hkw, hargs, checkArguments,
      checkSingleArgument, String.toList, checkEveryArgument_eq_filterMap]

/-- Witness for C8: `EXPOSE 8080 -80 8081-8082 80-` flags exactly the tokens
`-80` and `80-`. -/
theorem claimC8_witness :
    instructionDiagnostics ⟨ValidationSeverity.WARNING⟩ ["EXPOSE"] '\\'
      "EXPOSE 8080 -80 8081-8082 80-".toList
      ⟨"EXPOSE", "EXPOSE", "EXPOSE 8080 -80 8081-8082 80-", ⟨⟨0, 0⟩, ⟨0, 6⟩⟩,
       [⟨"8080", ⟨⟨0, 7⟩, ⟨0, 11⟩⟩⟩, ⟨"-80", ⟨⟨0, 12⟩, ⟨0, 15⟩⟩⟩,
        ⟨"8081-8082", ⟨⟨0, 16⟩, ⟨0, 25⟩⟩⟩, ⟨"80-", ⟨⟨0, 26⟩, ⟨0, 29⟩⟩⟩]⟩ =
    [createInvalidPort "EXPOSE 8080 -80 8081-8082 80-".toList 12 15 "-80",
     createInvalidPort "EXPOSE 8080 -80 8081-8082 80-".toList 26 29 "80-"] := by
  have h := (claimC8 ⟨ValidationSeverity.WARNING⟩ ["EXPOSE"] '\\'
    "EXPOSE 8080 -80 8081-8082 80-".toList
    ⟨"EXPOSE", "EXPOSE", "EXPOSE 8080 -80 8081-8082 80-", ⟨⟨0, 0⟩, ⟨0, 6⟩⟩,
     [⟨"8080", ⟨⟨0, 7⟩, ⟨0, 11⟩⟩⟩, ⟨"-80", ⟨⟨0, 12⟩, ⟨0, 15⟩⟩⟩,
      ⟨"8081-8082", ⟨⟨0, 16⟩, ⟨0, 25⟩⟩⟩, ⟨"80-", ⟨⟨0, 26⟩, ⟨0, 29⟩⟩⟩]⟩
    (by decide) rfl rfl
    (by simp [checkArgsMissing, isWhitespace, String.length])).2
  rw [h]
  have h1 : validPortSpec "8080" := by decide
  have h2 : ¬validPortSpec "-80" := by decide
  have h3 : validPortSpec "8081-8082" := by decide
  have h4 : ¬validPortSpec "80-" := by decide
  simp only [List.filterMap]
  norm_num [h1, h2, h3, h4, offsetAt, lineOffsets, lineOffsetsAux]

/-! ## Claim C10: the MAINTAINER deprecation diagnostic is zero-width -/

/-- C10: for a MAINTAINER instruction written in canonical uppercase form
and present in the whitelist, with `deprecatedMaintainer` set to Warning or
Error, the per-instruction pass emits exactly one DEPRECATED_MAINTAINER
diagnostic, and its range is empty: both ends are the position of the
instruction range's start offset (the end offset of the instruction is not
used). -/
theorem claimC10 (settings : ValidatorSettings) (keywords : List String)
    (escape : Char) (text : List Char) (ins : Instruction)
    (hkw : keywords.contains ins.keyword = true)
    (hname : ins.keyword = "MAINTAINER")
    (hcase : ins.keyword = ins.instruction)
    (hsev : settings.deprecatedMaintainer = ValidationSeverity.WARNING ∨
      settings.deprecatedMaintainer = ValidationSeverity.ERROR) :
    ∃ d : Diagnostic,
      createMaintainerDeprecated settings text
        (offsetAt text ins.instructionRange.start)
        (offsetAt text ins.instructionRange.start) = some d ∧
      (instructionDiagnostics settings keywords escape text ins).filter
        (fun d => d.code = ValidationCode.DEPRECATED_MAINTAINER) = [d] ∧
      d.range.start = d.range.stop ∧
      d.range.start = positionAt text (offsetAt text ins.instructionRange.start) := by
  obtain ⟨kw, inst, tc, r, argsl⟩ := ins
  obtain ⟨sev⟩ := settings
  simp only at hkw hname hcase hsev ⊢
  subst hname
  subst hcase
  replace hkw : "MAINTAINER" ∈ keywords := by simpa using hkw
  rcases hsev with h | h <;> subst h <;>
    (refine ⟨_, rfl, ?_, rfl, rfl⟩
     unfold instructionDiagnostics
     by_cases hm : checkArgsMissing escape
         (List.drop ("MAINTAINER" : String).length tc.data) = true <;>
       simp [hkw, hm, checkArguments, String.toList, createMaintainerDeprecated,
         createDiagnostic, createError, createMissingArgument, List.filter])

/-- Witness for C10 at a concrete MAINTAINER line with Error severity. -/
theorem claimC10_witness :
    ∃ d : Diagnostic,
      createMaintainerDeprecated ⟨ValidationSeverity.ERROR⟩ "MAINTAINER bob".toList 0 0 =
        some d ∧
      (instructionDiagnostics ⟨ValidationSeverity.ERROR⟩ ["MAINTAINER"] '\\'
        "MAINTAINER bob".toList
        ⟨"MAINTAINER", "MAINTAINER", "MAINTAINER bob", ⟨⟨0, 0⟩, ⟨0, 10⟩⟩,
         [⟨"bob", ⟨⟨0, 11⟩, ⟨0, 14⟩⟩⟩]⟩).filter
        (fun d => d.code = ValidationCode.DEPRECATED_MAINTAINER) = [d] ∧
      d.range.start = d.range.stop ∧
      d.range.start = positionAt "MAINTAINER bob".toList 0 := by
  have h := claimC10 ⟨ValidationSeverity.ERROR⟩ ["MAINTAINER"] '\\'
    "MAINTAINER bob".toList
    ⟨"MAINTAINER", "MAINTAINER", "MAINTAINER bob", ⟨⟨0, 0⟩, ⟨0, 10⟩⟩,
     [⟨"bob", ⟨⟨0, 11⟩, ⟨0, 14⟩⟩⟩]⟩
    (by decide) rfl rfl (Or.inr rfl)
  simpa [offsetAt, lineOffsets, lineOffsetsAux] using h

/-! ## Claim C5: the NO_SOURCE_IMAGE diagnostic

The proof classifies the codes each pass can emit: the directive pass emits
only UNKNOWN_DIRECTIVE / INVALID_ESCAPE_DIRECTIVE, the per-instruction pass
never emits NO_SOURCE_IMAGE, and the structural scanner emits only DEFAULT
(unexpected-token) diagnostics. -/

theorem parseDirective_codes (text : List Char) (dir : Option Directive) :
    ∀ d ∈ (parseDirective text dir).problems,
      d.code = ValidationCode.UNKNOWN_DIRECTIVE ∨
      d.code = ValidationCode.INVALID_ESCAPE_DIRECTIVE := by
  cases dir with
  | none => simp [parseDirective]
  | some dd =>
    intro d hd
    by_cases h1 : dd.directive = DIRECTIVE_ESCAPE
    · by_cases h2 : dd.value ≠ "\\" ∧ dd.value ≠ "`" ∧ dd.value ≠ ""
      · simp [parseDirective, h1, h2] at hd
        subst hd
        right; rfl
      · simp [parseDirective, h1, h2] at hd
    · simp [parseDirective, h1] at hd
      subst hd
      left; rfl

theorem createMaintainerDeprecated_code (settings : ValidatorSettings)
    (text : List Char) (s e : Int) (d : Diagnostic)
    (h : createMaintainerDeprecated settings text s e = some d) :
    d.code = ValidationCode.DEPRECATED_MAINTAINER := by
  unfold createMaintainerDeprecated at h
  rcases settings with ⟨sev⟩
  cases sev <;> simp_all [createDiagnostic] <;> (subst h; rfl)

theorem checkEveryArgument_codes (text : List Char) (validArg : String → Bool)
    (createDiag : Int → Int → String → Diagnostic)
    (P : ValidationCode → Prop) (hcd : ∀ s e v, P ((createDiag s e v).code)) :
    ∀ l : List Argument, ∀ d ∈ checkEveryArgument text validArg createDiag l,
      P d.code := by
  intro l
  induction l with
  | nil => simp [checkEveryArgument]
  | cons a rest ih =>
    intro d hd
    rw [checkEveryArgument] at hd
    rcases List.mem_append.mp hd with h | h
    · rcases Bool.eq_false_or_eq_true (validArg a.value) with hv | hv <;>
        simp [hv] at h
      subst h
      exact hcd _ _ _
    · exact ih d h

theorem checkSingleArgument_codes (text : List Char) (args : List Argument)
    (so : Bool) (validArg : String → Bool)
    (createDiag : Int → Int → String → Diagnostic)
    (P : ValidationCode → Prop) (hcd : ∀ s e v, P ((createDiag s e v).code))
    (hextra : P ValidationCode.EXTRA_ARGUMENT) :
    ∀ d ∈ checkSingleArgument text args so validArg createDiag, P d.code := by
  intro d hd
  cases args with
  | nil => rw [checkSingleArgument] at hd; cases hd
  | cons a0 rest =>
    cases rest with
    | nil =>
      rw [checkSingleArgument] at hd
      by_cases hso : so = true
      · rw [if_pos hso] at hd
        rcases List.mem_append.mp hd with h | h
        · rcases Bool.eq_false_or_eq_true (validArg a0.value) with hv | hv <;>
            simp [hv] at h
          subst h
          exact hcd _ _ _
        · cases h
      · rw [if_neg hso] at hd
        exact checkEveryArgument_codes text validArg createDiag P hcd _ d hd
    | cons a1 r2 =>
      rw [checkSingleArgument] at hd
      by_cases hso : so = true
      · rw [if_pos hso] at hd
        rcases List.mem_append.mp hd with h | h
        · rcases Bool.eq_false_or_eq_true (validArg a0.value) with hv | hv <;>
            simp [hv] at h
          subst h
          exact hcd _ _ _
        · simp at h
          subst h
          exact hextra
      · rw [if_neg hso] at hd
        exact checkEveryArgument_codes text validArg createDiag P hcd _ d hd

theorem instructionDiagnostics_codes (settings : ValidatorSettings)
    (keywords : List String) (escape : Char) (text : List Char)
    (ins : Instruction) :
    ∀ d ∈ instructionDiagnostics settings keywords escape text ins,
      d.code = ValidationCode.UNKNOWN_INSTRUCTION ∨
      d.code = ValidationCode.LOWERCASE ∨
      d.code = ValidationCode.DEPRECATED_MAINTAINER ∨
      d.code = ValidationCode.MISSING_ARGUMENT ∨
      d.code = ValidationCode.EXTRA_ARGUMENT ∨
      d.code = ValidationCode.INVALID_STOPSIGNAL ∨
      d.code = ValidationCode.INVALID_PORT ∨
      d.code = ValidationCode.DEFAULT := by
  intro d hd
  unfold instructionDiagnostics at hd
  by_cases h1 : keywords.contains ins.keyword
  · rw [if_neg (by simpa using h1)] at hd
    by_cases h2 : ins.keyword ≠ ins.instruction
    · rw [if_pos h2] at hd
      simp at hd
      subst hd
      right; left; rfl
    · rw [if_neg h2] at hd
      rcases List.mem_append.mp hd with h | h
      · rcases List.mem_append.mp h with h | h
        · by_cases hm : ins.keyword = "MAINTAINER"
          · rw [if_pos hm] at h
            rcases hmd : createMaintainerDeprecated settings text
                (offsetAt text ins.instructionRange.start)
                (offsetAt text ins.instructionRange.start) with _ | dd <;>
              rw [hmd] at h
            · cases h
            · simp at h
              subst h
              right; right; left
              exact createMaintainerDeprecated_code _ _ _ _ _ hmd
          · rw [if_neg hm] at h
            cases h
        · unfold checkArguments at h
          by_cases hmiss : checkArgsMissing escape
              (ins.textContent.toList.drop ins.instruction.length) = true
          · rw [if_pos hmiss] at h
            simp at h
            subst h
            right; right; right; left; rfl
          · rw [if_neg hmiss] at h
            simp at h
      · by_cases hok : (checkArguments text escape ins).2 = true
        · rw [if_pos hok] at h
          by_cases hk1 : ins.keyword = "FROM" ∨ ins.keyword = "WORKDIR" ∨
              ins.keyword = "USER"
          · rw [if_pos hk1] at h
            exact checkSingleArgument_codes text ins.args true _ _
              (fun c => c = ValidationCode.UNKNOWN_INSTRUCTION ∨
                c = ValidationCode.LOWERCASE ∨
                c = ValidationCode.DEPRECATED_MAINTAINER ∨
                c = ValidationCode.MISSING_ARGUMENT ∨
                c = ValidationCode.EXTRA_ARGUMENT ∨
                c = ValidationCode.INVALID_STOPSIGNAL ∨
                c = ValidationCode.INVALID_PORT ∨
                c = ValidationCode.DEFAULT)
              (fun s e v => by
                simp [undefinedCreateDiagnostic, createError, createDiagnostic])
              (by simp) d h
          · rw [if_neg hk1] at h
            by_cases hk2 : ins.keyword = "STOPSIGNAL"
            · rw [if_pos hk2] at h
              exact checkSingleArgument_codes text ins.args true _ _
                (fun c => c = ValidationCode.UNKNOWN_INSTRUCTION ∨
                  c = ValidationCode.LOWERCASE ∨
                  c = ValidationCode.DEPRECATED_MAINTAINER ∨
                  c = ValidationCode.MISSING_ARGUMENT ∨
                  c = ValidationCode.EXTRA_ARGUMENT ∨
                  c = ValidationCode.INVALID_STOPSIGNAL ∨
                  c = ValidationCode.INVALID_PORT ∨
                  c = ValidationCode.DEFAULT)
                (fun s e v => by
                  simp [createInvalidStopSignal, createError, createDiagnostic])
                (by simp) d h
            · rw [if_neg hk2] at h
              by_cases hk3 : ins.keyword = "EXPOSE"
              · rw [if_pos hk3] at h
                exact checkSingleArgument_codes text ins.args false _ _
                  (fun c => c = ValidationCode.UNKNOWN_INSTRUCTION ∨
                    c = ValidationCode.LOWERCASE ∨
                    c = ValidationCode.DEPRECATED_MAINTAINER ∨
                    c = ValidationCode.MISSING_ARGUMENT ∨
                    c = ValidationCode.EXTRA_ARGUMENT ∨
                    c = ValidationCode.INVALID_STOPSIGNAL ∨
                    c = ValidationCode.INVALID_PORT ∨
                    c = ValidationCode.DEFAULT)
                  (fun s e v => by
                    simp [createInvalidPort, createError, createDiagnostic])
                  (by simp) d h
              · rw [if_neg hk3] at h
                cases h
        · rw [if_neg hok] at h
          cases h
  · rw [if_pos (by simpa using h1)] at hd
    simp at hd
    subst hd
    left; rfl

theorem createUnexpectedToken_code (text : List Char) (a b : Int) :
    (createUnexpectedToken text a b).code = ValidationCode.DEFAULT := rfl

set_option maxHeartbeats 1000000 in
theorem parseJSONLoop_codes (escape : Char) (text : List Char)
    (l : List Char) (i : Nat) (st : JSONState) :
    ∀ d ∈ (parseJSONLoop escape text l i st).1,
      d.code = ValidationCode.DEFAULT := by
  induction l, i, st using parseJSONLoop.induct escape text <;>
    rw [parseJSONLoop] <;> (repeat' split) <;>
    simp_all [createUnexpectedToken_code]

theorem parseVOLUMELoop_codes (escape : Char) (text : List Char)
    (l : List Char) (i : Nat) (json : Bool) :
    ∀ d ∈ (parseVOLUMELoop escape text l i json).1,
      d.code = ValidationCode.DEFAULT := by
  induction l, i, json using parseVOLUMELoop.induct escape text <;>
    rw [parseVOLUMELoop] <;> (repeat' split) <;>
    simp_all [parseJSON] <;>
    (intro d hd; exact parseJSONLoop_codes escape text _ _ _ d hd)

theorem scanLoop_codes (keywords : List String) (escape : Char)
    (text : List Char) :
    ∀ (fuel i : Nat), ∀ d ∈ scanLoop keywords escape text fuel i,
      d.code = ValidationCode.DEFAULT := by
  intro fuel
  induction fuel with
  | zero => intro i d hd; simp [scanLoop] at hd
  | succ n ih =>
    intro i d hd
    rw [scanLoop] at hd
    rcases hch : charAt text i with _ | c <;> rw [hch] at hd <;> simp only [] at hd
    · cases hd
    · by_cases hws : isWhitespace c = true
      · rw [if_pos hws] at hd
        exact ih _ d hd
      · rw [if_neg hws] at hd
        by_cases hsh : c = '#'
        · rw [if_pos hsh] at hd
          rcases hfb : findLineBreak (text.drop (i + 1)) (i + 1) with _ | j <;>
            rw [hfb] at hd <;> simp only [] at hd
          · cases hd
          · exact ih _ d hd
        · rw [if_neg hsh] at hd
          rcases hsw : scanWordLoop escape (text.drop (i + 1)) (i + 1) [c] with
            _ | ⟨w, j⟩ | _ <;> rw [hsw] at hd <;> simp only [] at hd
          · cases hd
          · by_cases hk1 : simpleKeywords.contains (String.mk (w.map Char.toUpper)) = true
            · rw [if_pos hk1] at hd
              rcases hsk : skipNewlinesMF escape (text.drop (j + 1)) (j + 1) with
                _ | k <;> rw [hsk] at hd <;> simp only [] at hd
              · cases hd
              · exact ih _ d hd
            · rw [if_neg hk1] at hd
              by_cases hk2 : String.mk (w.map Char.toUpper) = "VOLUME"
              · rw [if_pos hk2] at hd
                rcases List.mem_append.mp hd with h | h
                · exact parseVOLUMELoop_codes escape text _ _ _ d h
                · exact ih _ d h
              · rw [if_neg hk2] at hd
                by_cases hk3 : ¬keywords.contains (String.mk (w.map Char.toUpper)) = true
                · rw [if_pos hk3] at hd
                  rcases hsk : skipNewlinesMF escape (text.drop (j + 1)) (j + 1) with
                    _ | k <;> rw [hsk] at hd <;> simp only [] at hd
                  · cases hd
                  · exact ih _ d hd
                · rw [if_neg hk3] at hd
                  rcases hsk : skipNewlinesKnown escape (text.drop (j + 1)) (j + 1) with
                    _ | k <;> rw [hsk] at hd <;> simp only [] at hd
                  · cases hd
                  · exact ih _ d hd
          · exact ih _ d hd

/-- Every offset produced by the line-offset scan lies strictly beyond the
start index and within the text. -/
theorem lineOffsetsAux_mem (text : List Char) (i : Nat) :
    ∀ x ∈ lineOffsetsAux text i, i < x ∧ x ≤ i + text.length := by
  induction text, i using lineOffsetsAux.induct with
  | case1 j => simp [lineOffsetsAux]
  | case2 rest j ih =>
    intro x hx
    simp only [lineOffsetsAux, List.mem_cons] at hx
    rcases hx with rfl | hx
    · simp only [List.length_cons]; omega
    · have h2 := ih x hx; simp only [List.length_cons] at h2 ⊢; omega
  | case3 rest j hne ih =>
    intro x hx
    simp only [lineOffsetsAux, List.mem_cons] at hx
    rcases hx with rfl | hx
    · simp only [List.length_cons]; omega
    · have h2 := ih x hx; simp only [List.length_cons] at h2 ⊢; omega
  | case4 rest j ih =>
    intro x hx
    simp only [lineOffsetsAux, List.mem_cons] at hx
    rcases hx with rfl | hx
    · simp only [List.length_cons]; omega
    · have h2 := ih x hx; simp only [List.length_cons] at h2 ⊢; omega
  | case5 c rest j h1 h2 h3 ih =>
    intro x hx
    simp only [lineOffsetsAux] at hx
    have h4 := ih x hx
    simp only [List.length_cons] at h4 ⊢
    omega

/-- If every entry exceeds the offset, the lookup keeps its accumulators. -/
theorem lineLookup_stop (l : List Nat) (off n s : Nat)
    (h : ∀ x ∈ l, ¬x ≤ off) : lineLookup l off n s = (n, s) := by
  cases l with
  | nil => rfl
  | cons o rest =>
    rw [lineLookup, if_neg (h o (by simp))]

/-- Offset 0 is always position (0, 0). -/
theorem positionAt_zero (text : List Char) : positionAt text 0 = ⟨0, 0⟩ := by
  have h1 : lineLookup (lineOffsetsAux text 0) 0 1 0 = (1, 0) :=
    lineLookup_stop _ _ _ _ (fun x hx => by
      have := (lineOffsetsAux_mem text 0 x hx).1
      omega)
  simp only [positionAt, clampOffset, lineOffsets]
  rw [if_pos (by norm_num), lineLookup, if_pos (Nat.le_refl 0), h1]
  rfl

/-- C5: a document with no parsed instructions gets exactly one
NO_SOURCE_IMAGE diagnostic with the empty range at (0,0); a document whose
first instruction's keyword is not FROM gets exactly one NO_SOURCE_IMAGE
diagnostic at the first instruction's range (its offsets converted back to
positions). -/
theorem claimC5 (settings : ValidatorSettings) (keywords : List String)
    (text : List Char) (df : Dockerfile) (fuel : Nat) :
    (df.instructions = [] →
      (validate settings keywords text df fuel).filter
          (fun d => d.code = ValidationCode.NO_SOURCE_IMAGE) =
        [createNoSourceImage text 0 0] ∧
      (createNoSourceImage text 0 0).range = ⟨⟨0, 0⟩, ⟨0, 0⟩⟩) ∧
    (∀ (ins0 : Instruction) (rest : List Instruction),
      df.instructions = ins0 :: rest → ins0.keyword ≠ "FROM" →
      (validate settings keywords text df fuel).filter
          (fun d => d.code = ValidationCode.NO_SOURCE_IMAGE) =
        [createNoSourceImage text (offsetAt text ins0.instructionRange.start)
          (offsetAt text ins0.instructionRange.stop)]) := by
  have hdir : ((parseDirective text df.directive).problems).filter
      (fun d => d.code = ValidationCode.NO_SOURCE_IMAGE) = [] := by
    rw [List.filter_eq_nil_iff]
    intro d hd
    rcases parseDirective_codes text df.directive d hd with h | h <;> simp [h]
  have hscan : ∀ dc, (scanLoop keywords (parseDirective text df.directive).escape
      text fuel dc).filter (fun d => d.code = ValidationCode.NO_SOURCE_IMAGE) = [] := by
    intro dc
    rw [List.filter_eq_nil_iff]
    intro d hd
    have := scanLoop_codes keywords (parseDirective text df.directive).escape
      text fuel dc d hd
    simp [this]
  have hinstr : ∀ l : List Instruction,
      ((l.map (instructionDiagnostics settings keywords
        (parseDirective text df.directive).escape text)).flatten).filter
        (fun d => d.code = ValidationCode.NO_SOURCE_IMAGE) = [] := by
    intro l
    rw [List.filter_eq_nil_iff]
    intro d hd
    rw [List.mem_flatten] at hd
    obtain ⟨sub, hsub, hdsub⟩ := hd
    rw [List.mem_map] at hsub
    obtain ⟨ins, _, rfl⟩ := hsub
    rcases instructionDiagnostics_codes settings keywords _ text ins d hdsub with
      h | h | h | h | h | h | h | h <;> simp [h]
  constructor
  · intro hempty
    constructor
    · unfold validate
      rw [hempty]
      simp only [List.filter_append, hdir, hscan, List.map_nil, List.flatten_nil,
        List.filter_nil, List.nil_append, List.append_nil]
      simp [createNoSourceImage, createError, createDiagnostic]
    · simp [createNoSourceImage, createError, createDiagnostic, positionAt_zero]
  · intro ins0 rest hcons hne
    unfold validate
    rw [hcons]
    simp only [List.filter_append, hdir, hscan, List.nil_append, List.append_nil]
    rw [if_pos hne]
    have h2 := hinstr (ins0 :: rest)
    rw [h2]
    simp [createNoSourceImage, createError, createDiagnostic]

/-- Witness for C5: an empty document, and a document starting with
MAINTAINER. -/
theorem claimC5_witness :
    (validate ⟨ValidationSeverity.WARNING⟩ ["FROM"] "".toList ⟨none, []⟩ 5).filter
        (fun d => d.code = ValidationCode.NO_SOURCE_IMAGE) =
      [createNoSourceImage "".toList 0 0] ∧
    (validate ⟨ValidationSeverity.WARNING⟩ ["FROM", "MAINTAINER"]
        "MAINTAINER bob".toList
        ⟨none, [⟨"MAINTAINER", "MAINTAINER", "MAINTAINER bob",
          ⟨⟨0, 0⟩, ⟨0, 10⟩⟩, [⟨"bob", ⟨⟨0, 11⟩, ⟨0, 14⟩⟩⟩]⟩]⟩ 5).filter
        (fun d => d.code = ValidationCode.NO_SOURCE_IMAGE) =
      [createNoSourceImage "MAINTAINER bob".toList 0 10] := by
  constructor
  · exact ((claimC5 ⟨ValidationSeverity.WARNING⟩ ["FROM"] "".toList
      ⟨none, []⟩ 5).1 rfl).1
  · have h := (claimC5 ⟨ValidationSeverity.WARNING⟩ ["FROM", "MAINTAINER"]
      "MAINTAINER bob".toList
      ⟨none, [⟨"MAINTAINER", "MAINTAINER", "MAINTAINER bob",
        ⟨⟨0, 0⟩, ⟨0, 10⟩⟩, [⟨"bob", ⟨⟨0, 11⟩, ⟨0, 14⟩⟩⟩]⟩]⟩ 5).2
      ⟨"MAINTAINER", "MAINTAINER", "MAINTAINER bob", ⟨⟨0, 0⟩, ⟨0, 10⟩⟩,
        [⟨"bob", ⟨⟨0, 11⟩, ⟨0, 14⟩⟩⟩]⟩ [] rfl (by decide)
    rw [h]
    norm_num [offsetAt, lineOffsets, lineOffsetsAux]

/-! ## Claim C1: the scanner does not stop at an unrecognized word -/

/-- Counterexample to C1.  In `xyz \nVOLUME [a]\n` the first word `xyz`
(uppercased `XYZ`) is not in the whitelist; the claim says the structural
scan stops entirely there, so no line after it would be scanned.  Instead
the scanner skips to the next line break, resumes, scans the VOLUME line and
reports the unquoted `a` in its JSON array: the returned list contains an
UNEXPECTED_TOKEN located on line 1, after the unrecognized word of line 0.
The same happens through `validate` (third conjunct, with an empty
instruction model contributing only NO_SOURCE_IMAGE). -/
theorem claimC1_counterexample :
    scanLoop ["FROM", "VOLUME"] '\\' "xyz \nVOLUME [a]\n".toList 50 0 =
      [createUnexpectedToken "xyz \nVOLUME [a]\n".toList 13 14] ∧
    (createUnexpectedToken "xyz \nVOLUME [a]\n".toList 13 14).range.start.line = 1 ∧
    validate ⟨ValidationSeverity.WARNING⟩ ["FROM", "VOLUME"]
      "xyz \nVOLUME [a]\n".toList ⟨none, []⟩ 50 =
      [createNoSourceImage "xyz \nVOLUME [a]\n".toList 0 0,
       createUnexpectedToken "xyz \nVOLUME [a]\n".toList 13 14] := by
  have h1 : scanLoop ["FROM", "VOLUME"] '\\' "xyz \nVOLUME [a]\n".toList 50 0 =
      [createUnexpectedToken "xyz \nVOLUME [a]\n".toList 13 14] := by
    simp [scanLoop, charAt, isWhitespace, scanWordLoop, linebreakHead,
      skipNewlinesMF, skipNewlinesKnown, findLineBreak, simpleKeywords,
      parseVOLUME, parseVOLUMELoop, parseJSON, parseJSONLoop, JSONState.initial]
  refine ⟨h1, by decide, ?_⟩
  simp [validate, parseDirective]
  exact h1

/-- C1 (amended): when the first word accumulated on a line (uppercased,
after splicing continuations) is neither one of the specially handled
keywords nor in the caller-supplied whitelist, the structural scanner does
not stop: it emits nothing for the word, advances (honoring continuations)
to the next line break, and resumes scanning from the following character —
the remaining diagnostics are exactly those of the scan restarted there.
Only if end of text is reached while looking for that line break does the
scan return early. -/
theorem claimC1 (keywords : List String) (escape : Char) (text : List Char)
    (fuel i j k : Nat) (c : Char) (w : List Char)
    (hc : charAt text i = some c) (hws : isWhitespace c = false) (hsh : c ≠ '#')
    (hword : scanWordLoop escape (text.drop (i + 1)) (i + 1) [c] =
      WordStep.dispatch w j)
    (hns : simpleKeywords.contains (String.mk (w.map Char.toUpper)) = false)
    (hnv : String.mk (w.map Char.toUpper) ≠ "VOLUME")
    (hnk : keywords.contains (String.mk (w.map Char.toUpper)) = false)
    (hskip : skipNewlinesMF escape (text.drop (j + 1)) (j + 1) = some k) :
    scanLoop keywords escape text (fuel + 1) i =
      scanLoop keywords escape text fuel (k + 1) := by
  rw [scanLoop, hc]
  simp only []
  rw [if_neg (by simp [hws]), if_neg hsh, hword]
  simp only []
  rw [if_neg (by simpa using hns), if_neg hnv, if_pos (by simpa using hnk),
    hskip]

/-- Witness for the amended C1 on the counterexample document: after the
unknown word `xyz` of line 0 the scan continues at offset 5, the start of
the VOLUME line. -/
theorem claimC1_witness :
    scanLoop ["FROM", "VOLUME"] '\\' "xyz \nVOLUME [a]\n".toList 8 0 =
      scanLoop ["FROM", "VOLUME"] '\\' "xyz \nVOLUME [a]\n".toList 7 5 := by
  exact claimC1 ["FROM", "VOLUME"] '\\' "xyz \nVOLUME [a]\n".toList 7 0 3 4 'x'
    "xyz".toList rfl rfl (by decide)
    (by simp [scanWordLoop, linebreakHead, isWhitespace, charAt])
    (by decide) (by decide) (by decide)
    (by simp [skipNewlinesMF, linebreakHead, charAt])

/-! ## Claim C9: every reported range is ordered and in bounds

The range invariant follows from three facts: every diagnostic is built by
`createDiagnostic` from a pair of offsets `s ≤ e`; `positionAt` is monotone
(the accessor clamps first); and `positionAt` always lands inside the
document.  The offsets fed by the document-model passes come from `offsetAt`
applied to well-formed ranges of the external model, so `offsetAt` must also
be monotone, which needs the sortedness of the line-offset table. -/

theorem lineLookup_shift (l : List Nat) (off : Nat) :
    ∀ n s : Nat, lineLookup l off (n + 1) s =
      ((lineLookup l off n s).1 + 1, (lineLookup l off n s).2) := by
  induction l with
  | nil => intro n s; rfl
  | cons o rest ih =>
    intro n s
    rw [lineLookup, lineLookup]
    by_cases h : o ≤ off
    · rw [if_pos h, if_pos h, ih]
    · rw [if_neg h, if_neg h]

theorem lineLookup_fst_le_length (l : List Nat) (off : Nat) :
    ∀ n s : Nat, (lineLookup l off n s).1 ≤ n + l.length := by
  induction l with
  | nil => intro n s; simp [lineLookup]
  | cons o rest ih =>
    intro n s
    rw [lineLookup]
    by_cases h : o ≤ off
    · rw [if_pos h]
      have := ih (n + 1) o
      simp only [List.length_cons]
      omega
    · rw [if_neg h]
      simp only [List.length_cons]
      omega

theorem lineLookup_fst_ge (l : List Nat) (off : Nat) :
    ∀ n s : Nat, n ≤ (lineLookup l off n s).1 := by
  induction l with
  | nil => intro n s; simp [lineLookup]
  | cons o rest ih =>
    intro n s
    rw [lineLookup]
    by_cases h : o ≤ off
    · rw [if_pos h]
      have := ih (n + 1) o
      omega
    · rw [if_neg h]

theorem lineLookup_snd_le (l : List Nat) (off : Nat) :
    ∀ n s : Nat, s ≤ off → (lineLookup l off n s).2 ≤ off := by
  induction l with
  | nil => intro n s h; simpa [lineLookup]
  | cons o rest ih =>
    intro n s h
    rw [lineLookup]
    by_cases ho : o ≤ off
    · rw [if_pos ho]
      exact ih (n + 1) o ho
    · rw [if_neg ho]
      simpa

theorem lineLookup_fst_mono (l : List Nat) (off off' : Nat) (hoff : off ≤ off') :
    ∀ n s : Nat, (lineLookup l off n s).1 ≤ (lineLookup l off' n s).1 := by
  induction l with
  | nil => intro n s; simp [lineLookup]
  | cons o rest ih =>
    intro n s
    rw [lineLookup, lineLookup]
    by_cases h : o ≤ off
    · rw [if_pos h, if_pos (Nat.le_trans h hoff)]
      exact ih (n + 1) o
    · rw [if_neg h]
      by_cases h' : o ≤ off'
      · rw [if_pos h']
        have h1 := lineLookup_fst_ge rest off' (n + 1) o
        omega
      · rw [if_neg h']

theorem lineLookup_snd_of_fst_eq (l : List Nat) (off off' : Nat)
    (hoff : off ≤ off') :
    ∀ n s : Nat, (lineLookup l off n s).1 = (lineLookup l off' n s).1 →
      (lineLookup l off n s).2 = (lineLookup l off' n s).2 := by
  induction l with
  | nil => intro n s _; rfl
  | cons o rest ih =>
    intro n s heq
    simp only [lineLookup] at heq ⊢
    by_cases h : o ≤ off
    · have h2 : o ≤ off' := Nat.le_trans h hoff
      rw [if_pos h, if_pos h2] at heq ⊢
      exact ih (n + 1) o heq
    · rw [if_neg h] at heq ⊢
      by_cases h' : o ≤ off'
      · rw [if_pos h'] at heq
        have h1 := lineLookup_fst_ge rest off' (n + 1) o
        omega
      · rw [if_neg h'] at heq ⊢

theorem lineLookup_spec (l : List Nat) (off : Nat) :
    ∀ s : Nat, s ≤ off →
      (lineLookup l off 0 s).2 = (s :: l).getD (lineLookup l off 0 s).1 0 ∧
      ((lineLookup l off 0 s).1 < l.length →
        off < l.getD (lineLookup l off 0 s).1 0) := by
  induction l with
  | nil => intro s _; simp [lineLookup]
  | cons o rest ih =>
    intro s hs
    rw [lineLookup]
    by_cases h : o ≤ off
    · rw [if_pos h]
      have hsh := lineLookup_shift rest off 0 o
      rw [hsh]
      obtain ⟨ih1, ih2⟩ := ih o h
      constructor
      · rw [ih1]
        rfl
      · intro hlen
        simp only [List.length_cons] at hlen
        have h2 := ih2 (by omega)
        simpa using h2
    · rw [if_neg h]
      constructor
      · simp
      · intro _
        simpa using Nat.lt_of_not_le h

theorem clampOffset_mono (text : List Char) (o1 o2 : Int) (h : o1 ≤ o2) :
    clampOffset text o1 ≤ clampOffset text o2 := by
  unfold clampOffset
  by_cases h1 : o1 ≤ 0
  · rw [if_pos h1]
    omega
  · rw [if_neg h1, if_neg (by omega)]
    have : o1.toNat ≤ o2.toNat := Int.toNat_le_toNat h
    omega

theorem clampOffset_le_length (text : List Char) (o : Int) :
    clampOffset text o ≤ text.length := by
  unfold clampOffset
  by_cases h : o ≤ 0
  · rw [if_pos h]; omega
  · rw [if_neg h]; omega

/-- The full lookup over the line-offset table always takes the leading 0. -/
theorem lineLookup_full (text : List Char) (off : Nat) :
    lineLookup (lineOffsets text) off 0 0 =
      ((lineLookup (lineOffsetsAux text 0) off 0 0).1 + 1,
       (lineLookup (lineOffsetsAux text 0) off 0 0).2) := by
  unfold lineOffsets
  rw [lineLookup, if_pos (Nat.zero_le off), lineLookup_shift]

/-- `positionAt` is monotone with respect to the lexicographic position
order. -/
theorem positionAt_mono (text : List Char) (o1 o2 : Int) (h : o1 ≤ o2) :
    posLe (positionAt text o1) (positionAt text o2) := by
  unfold positionAt
  set off1 := clampOffset text o1 with hoff1
  set off2 := clampOffset text o2 with hoff2
  have hoff : off1 ≤ off2 := clampOffset_mono text o1 o2 h
  have hfst := lineLookup_fst_mono (lineOffsets text) off1 off2 hoff 0 0
  by_cases heq : (lineLookup (lineOffsets text) off1 0 0).1 =
      (lineLookup (lineOffsets text) off2 0 0).1
  · right
    have hsnd := lineLookup_snd_of_fst_eq (lineOffsets text) off1 off2 hoff 0 0 heq
    refine ⟨by simp [heq], ?_⟩
    simp only [hsnd]
    omega
  · left
    have h1 := lineLookup_full text off1
    have h2 := lineLookup_full text off2
    simp only [h1, h2] at heq hfst ⊢
    omega

/-- `positionAt` always produces a position inside the document. -/
theorem positionAt_inBounds (text : List Char) (o : Int) :
    posInBounds text (positionAt text o) := by
  set off := clampOffset text o with hoffdef
  set r := lineLookup (lineOffsets text) off 0 0 with hrdef
  have hpos : positionAt text o = ⟨r.1 - 1, off - r.2⟩ := rfl
  rw [hpos]
  have hoffle : off ≤ text.length := clampOffset_le_length text o
  obtain ⟨hspec1, hspec2⟩ :=
    lineLookup_spec (lineOffsets text) off 0 (Nat.zero_le off)
  rw [← hrdef] at hspec1 hspec2
  have hfull := lineLookup_full text off
  have hge1 : 1 ≤ r.1 := by
    rw [hrdef, hfull]
    simp
  have hlen : r.1 ≤ (lineOffsets text).length := by
    have := lineLookup_fst_le_length (lineOffsets text) off 0 0
    rw [← hrdef] at this
    omega
  have hsle : r.2 ≤ off :=
    hrdef ▸ lineLookup_snd_le (lineOffsets text) off 0 0 (Nat.zero_le off)
  constructor
  · show r.1 - 1 < numLines text
    unfold numLines
    have : 0 < (lineOffsets text).length := by simp [lineOffsets]
    omega
  · show lineStart text (r.1 - 1) + (off - r.2) ≤ lineStop text (r.1 - 1)
    have hstart : lineStart text (r.1 - 1) = r.2 := by
      unfold lineStart
      rw [hspec1]
      rcases Nat.exists_eq_add_of_le hge1 with ⟨k, hk⟩
      rw [hk]
      simp [Nat.add_comm 1 k]
    rw [hstart]
    unfold lineStop numLines lineStart
    by_cases hlt : r.1 - 1 + 1 < (lineOffsets text).length
    · rw [if_pos hlt]
      have hfst : r.1 - 1 + 1 = r.1 := by omega
      rw [hfst]
      have h2 := hspec2 (by omega)
      omega
    · rw [if_neg hlt]
      omega

theorem lineOffsetsAux_sorted (text : List Char) (i : Nat) :
    List.Pairwise (· < ·) (lineOffsetsAux text i) := by
  induction text, i using lineOffsetsAux.induct with
  | case1 j => simp [lineOffsetsAux]
  | case2 rest j ih =>
    rw [lineOffsetsAux]
    exact List.Pairwise.cons
      (fun x hx => (lineOffsetsAux_mem rest (j + 2) x hx).1) ih
  | case3 rest j hne ih =>
    rw [lineOffsetsAux]
    · exact List.Pairwise.cons
        (fun x hx => (lineOffsetsAux_mem rest (j + 1) x hx).1) ih
    · exact hne
  | case4 rest j ih =>
    rw [lineOffsetsAux]
    exact List.Pairwise.cons
      (fun x hx => (lineOffsetsAux_mem rest (j + 1) x hx).1) ih
  | case5 c rest j h1 h2 h3 ih =>
    rw [lineOffsetsAux]
    · exact ih
    · exact h1
    · exact h2
    · exact h3

theorem lineOffsets_sorted (text : List Char) :
    List.Pairwise (· < ·) (lineOffsets text) := by
  unfold lineOffsets
  exact List.Pairwise.cons
    (fun x hx => (lineOffsetsAux_mem text 0 x hx).1)
    (lineOffsetsAux_sorted text 0)

theorem lineOffsets_mem_le (text : List Char) :
    ∀ x ∈ lineOffsets text, x ≤ text.length := by
  intro x hx
  unfold lineOffsets at hx
  rcases List.mem_cons.mp hx with rfl | hx
  · omega
  · have := (lineOffsetsAux_mem text 0 x hx).2
    omega

theorem sorted_getD_le {l : List Nat} (hs : List.Pairwise (· < ·) l)
    {i j : Nat} (hij : i ≤ j) (hj : j < l.length) :
    l.getD i 0 ≤ l.getD j 0 := by
  rcases Nat.lt_or_ge i j with hlt | hge
  · have hi : i < l.length := by omega
    rw [List.getD_eq_getElem l 0 hi, List.getD_eq_getElem l 0 hj]
    exact Nat.le_of_lt (List.pairwise_iff_getElem.mp hs i j hi hj hlt)
  · have : i = j := by omega
    subst this
    rfl

theorem lineOffsets_getD_le_length (text : List Char) {i : Nat}
    (hi : i < (lineOffsets text).length) :
    (lineOffsets text).getD i 0 ≤ text.length := by
  rw [List.getD_eq_getElem _ 0 hi]
  exact lineOffsets_mem_le text _ (List.getElem_mem hi)

/-- `offsetAt` is monotone with respect to the lexicographic position
order. -/
theorem offsetAt_mono (text : List Char) (p q : Position) (h : posLe p q) :
    offsetAt text p ≤ offsetAt text q := by
  have hsorted := lineOffsets_sorted text
  unfold offsetAt
  by_cases hp : p.line ≥ (lineOffsets text).length
  · have hq : q.line ≥ (lineOffsets text).length := by
      rcases h with h | ⟨h, _⟩ <;> omega
    rw [if_pos hp, if_pos hq]
  · rw [if_neg hp]
    have hp' : p.line < (lineOffsets text).length := by omega
    have hstartp : (lineOffsets text).getD p.line 0 ≤ text.length :=
      lineOffsets_getD_le_length text hp'
    have hnextp : (if p.line + 1 < (lineOffsets text).length then
        (lineOffsets text).getD (p.line + 1) 0 else text.length) ≤ text.length := by
      split
      · exact lineOffsets_getD_le_length text (by omega)
      · exact Nat.le_refl _
    by_cases hq : q.line ≥ (lineOffsets text).length
    · rw [if_pos hq]
      exact Nat.max_le.mpr
        ⟨Nat.le_trans (Nat.min_le_right _ _) hnextp, hstartp⟩
    · rw [if_neg hq]
      have hq' : q.line < (lineOffsets text).length := by omega
      rcases Nat.lt_or_ge p.line q.line with hlt | hge
      · -- strictly earlier line: everything on line p stays at or before the
        -- start of line q
        have hnext_le : (if p.line + 1 < (lineOffsets text).length then
            (lineOffsets text).getD (p.line + 1) 0 else text.length) ≤
            (lineOffsets text).getD q.line 0 := by
          split
          · exact sorted_getD_le hsorted (by omega) hq'
          · omega
        refine Nat.le_trans (Nat.max_le.mpr ⟨?_, ?_⟩)
          (Nat.le_max_right _ _)
        · exact Nat.le_trans (Nat.min_le_right _ _) hnext_le
        · exact Nat.le_trans (sorted_getD_le hsorted (Nat.le_of_lt hlt) hq')
            (Nat.le_refl _)
      · -- same line (posLe rules out q.line < p.line here)
        have heq : p.line = q.line := by
          rcases h with h | ⟨h, _⟩ <;> omega
        have hch : p.character ≤ q.character := by
          rcases h with h | ⟨_, h⟩ <;> omega
        rw [heq]
        exact max_le_max
          (min_le_min (Nat.add_le_add_left hch _) (Nat.le_refl _))
          (Nat.le_refl _)

/-- A diagnostic whose range was built by the factory from an ordered pair of
offsets. -/
def GoodDiag (text : List Char) (d : Diagnostic) : Prop :=
  ∃ s e : Int, s ≤ e ∧ d.range = ⟨positionAt text s, positionAt text e⟩

theorem goodDiag_UT (text : List Char) (x : Int) :
    GoodDiag text (createUnexpectedToken text x (x + 1)) :=
  ⟨x, x + 1, by omega, rfl⟩

/-- A well-formed range of the external model (§3: `start ≤ end`). -/
def rangeWF (r : Range) : Prop := posLe r.start r.stop

instance (r : Range) : Decidable (rangeWF r) := by
  unfold rangeWF; infer_instance

def directiveWF : Option Directive → Prop
  | none => True
  | some d => rangeWF d.nameRange ∧ rangeWF d.valueRange ∧ rangeWF d.range

instance : (o : Option Directive) → Decidable (directiveWF o)
  | none => Decidable.isTrue trivial
  | some d => by unfold directiveWF; infer_instance

def instructionWF (ins : Instruction) : Prop :=
  rangeWF ins.instructionRange ∧ ∀ a ∈ ins.args, rangeWF a.range

instance (ins : Instruction) : Decidable (instructionWF ins) := by
  unfold instructionWF; infer_instance

def dockerfileWF (df : Dockerfile) : Prop :=
  directiveWF df.directive ∧ ∀ ins ∈ df.instructions, instructionWF ins

instance (df : Dockerfile) : Decidable (dockerfileWF df) := by
  unfold dockerfileWF; infer_instance

theorem offsetAt_le_coe (text : List Char) {r : Range} (h : rangeWF r) :
    ((offsetAt text r.start : Nat) : Int) ≤ ((offsetAt text r.stop : Nat) : Int) := by
  exact_mod_cast offsetAt_mono text r.start r.stop h

set_option maxHeartbeats 1600000 in
theorem parseJSONLoop_good (escape : Char) (text : List Char)
    (l : List Char) (i : Nat) (st : JSONState) :
    ∀ d ∈ (parseJSONLoop escape text l i st).1, GoodDiag text d := by
  induction l, i, st using parseJSONLoop.induct escape text <;>
    rw [parseJSONLoop] <;> (repeat' split) <;>
    simp_all <;>
    exact goodDiag_UT _ _

theorem parseVOLUMELoop_good (escape : Char) (text : List Char)
    (l : List Char) (i : Nat) (json : Bool) :
    ∀ d ∈ (parseVOLUMELoop escape text l i json).1, GoodDiag text d := by
  induction l, i, json using parseVOLUMELoop.induct escape text <;>
    rw [parseVOLUMELoop] <;> (repeat' split) <;>
    simp_all [parseJSON] <;>
    (intro d hd; exact parseJSONLoop_good escape text _ _ _ d hd)

theorem scanLoop_good (keywords : List String) (escape : Char)
    (text : List Char) :
    ∀ (fuel i : Nat), ∀ d ∈ scanLoop keywords escape text fuel i,
      GoodDiag text d := by
  intro fuel
  induction fuel with
  | zero => intro i d hd; simp [scanLoop] at hd
  | succ n ih =>
    intro i d hd
    rw [scanLoop] at hd
    rcases hch : charAt text i with _ | c <;> rw [hch] at hd <;> simp only [] at hd
    · cases hd
    · by_cases hws : isWhitespace c = true
      · rw [if_pos hws] at hd
        exact ih _ d hd
      · rw [if_neg hws] at hd
        by_cases hsh : c = '#'
        · rw [if_pos hsh] at hd
          rcases hfb : findLineBreak (text.drop (i + 1)) (i + 1) with _ | j <;>
            rw [hfb] at hd <;> simp only [] at hd
          · cases hd
          · exact ih _ d hd
        · rw [if_neg hsh] at hd
          rcases hsw : scanWordLoop escape (text.drop (i + 1)) (i + 1) [c] with
            _ | ⟨w, j⟩ | _ <;> rw [hsw] at hd <;> simp only [] at hd
          · cases hd
          · by_cases hk1 : simpleKeywords.contains (String.mk (w.map Char.toUpper)) = true
            · rw [if_pos hk1] at hd
              rcases hsk : skipNewlinesMF escape (text.drop (j + 1)) (j + 1) with
                _ | k <;> rw [hsk] at hd <;> simp only [] at hd
              · cases hd
              · exact ih _ d hd
            · rw [if_neg hk1] at hd
              by_cases hk2 : String.mk (w.map Char.toUpper) = "VOLUME"
              · rw [if_pos hk2] at hd
                rcases List.mem_append.mp hd with h | h
                · exact parseVOLUMELoop_good escape text _ _ _ d h
                · exact ih _ d h
              · rw [if_neg hk2] at hd
                by_cases hk3 : ¬keywords.contains (String.mk (w.map Char.toUpper)) = true
                · rw [if_pos hk3] at hd
                  rcases hsk : skipNewlinesMF escape (text.drop (j + 1)) (j + 1) with
                    _ | k <;> rw [hsk] at hd <;> simp only [] at hd
                  · cases hd
                  · exact ih _ d hd
                · rw [if_neg hk3] at hd
                  rcases hsk : skipNewlinesKnown escape (text.drop (j + 1)) (j + 1) with
                    _ | k <;> rw [hsk] at hd <;> simp only [] at hd
                  · cases hd
                  · exact ih _ d hd
          · exact ih _ d hd

theorem parseDirective_good (text : List Char) (dir : Option Directive)
    (hwf : directiveWF dir) :
    ∀ d ∈ (parseDirective text dir).problems, GoodDiag text d := by
  cases dir with
  | none => simp [parseDirective]
  | some dd =>
    obtain ⟨hw1, hw2, hw3⟩ := hwf
    intro d hd
    by_cases h1 : dd.directive = DIRECTIVE_ESCAPE
    · by_cases h2 : dd.value ≠ "\\" ∧ dd.value ≠ "`" ∧ dd.value ≠ ""
      · simp [parseDirective, h1, h2] at hd
        subst hd
        exact ⟨_, _, offsetAt_le_coe text hw2, rfl⟩
      · simp [parseDirective, h1, h2] at hd
    · simp [parseDirective, h1] at hd
      subst hd
      exact ⟨_, _, offsetAt_le_coe text hw1, rfl⟩

theorem checkEveryArgument_good (text : List Char) (validArg : String → Bool)
    (createDiag : Int → Int → String → Diagnostic)
    (hcd : ∀ (s e : Int) v, s ≤ e → GoodDiag text (createDiag s e v)) :
    ∀ l : List Argument, (∀ a ∈ l, rangeWF a.range) →
      ∀ d ∈ checkEveryArgument text validArg createDiag l, GoodDiag text d := by
  intro l
  induction l with
  | nil => simp [checkEveryArgument]
  | cons a rest ih =>
    intro hwf d hd
    rw [checkEveryArgument] at hd
    rcases List.mem_append.mp hd with h | h
    · rcases Bool.eq_false_or_eq_true (validArg a.value) with hv | hv <;>
        simp [hv] at h
      subst h
      exact hcd _ _ _ (offsetAt_le_coe text (hwf a (by simp)))
    · exact ih (fun x hx => hwf x (List.mem_cons_of_mem _ hx)) d h

theorem checkSingleArgument_good (text : List Char) (args : List Argument)
    (so : Bool) (validArg : String → Bool)
    (createDiag : Int → Int → String → Diagnostic)
    (hcd : ∀ (s e : Int) v, s ≤ e → GoodDiag text (createDiag s e v))
    (hwf : ∀ a ∈ args, rangeWF a.range) :
    ∀ d ∈ checkSingleArgument text args so validArg createDiag, GoodDiag text d := by
  intro d hd
  cases args with
  | nil => rw [checkSingleArgument] at hd; cases hd
  | cons a0 rest =>
    cases rest with
    | nil =>
      rw [checkSingleArgument] at hd
      by_cases hso : so = true
      · rw [if_pos hso] at hd
        rcases List.mem_append.mp hd with h | h
        · rcases Bool.eq_false_or_eq_true (validArg a0.value) with hv | hv <;>
            simp [hv] at h
          subst h
          exact hcd _ _ _ (offsetAt_le_coe text (hwf a0 (by simp)))
        · cases h
      · rw [if_neg hso] at hd
        exact checkEveryArgument_good text validArg createDiag hcd _ hwf d hd
    | cons a1 r2 =>
      rw [checkSingleArgument] at hd
      by_cases hso : so = true
      · rw [if_pos hso] at hd
        rcases List.mem_append.mp hd with h | h
        · rcases Bool.eq_false_or_eq_true (validArg a0.value) with hv | hv <;>
            simp [hv] at h
          subst h
          exact hcd _ _ _ (offsetAt_le_coe text (hwf a0 (by simp)))
        · simp at h
          subst h
          exact ⟨_, _, offsetAt_le_coe text (hwf a1 (by simp)), rfl⟩
      · rw [if_neg hso] at hd
        exact checkEveryArgument_good text validArg createDiag hcd _ hwf d hd

theorem createMaintainerDeprecated_good (settings : ValidatorSettings)
    (text : List Char) (s : Int) (d : Diagnostic)
    (h : createMaintainerDeprecated settings text s s = some d) :
    GoodDiag text d := by
  unfold createMaintainerDeprecated at h
  rcases settings with ⟨sev⟩
  cases sev <;> simp at h <;>
    (subst h; exact ⟨s, s, Int.le_refl s, rfl⟩)

theorem instructionDiagnostics_good (settings : ValidatorSettings)
    (keywords : List String) (escape : Char) (text : List Char)
    (ins : Instruction) (hwf : instructionWF ins) :
    ∀ d ∈ instructionDiagnostics settings keywords escape text ins,
      GoodDiag text d := by
  obtain ⟨hwr, hwa⟩ := hwf
  intro d hd
  unfold instructionDiagnostics at hd
  by_cases h1 : keywords.contains ins.keyword
  · rw [if_neg (by simpa using h1)] at hd
    by_cases h2 : ins.keyword ≠ ins.instruction
    · rw [if_pos h2] at hd
      simp at hd
      subst hd
      exact ⟨_, _, offsetAt_le_coe text hwr, rfl⟩
    · rw [if_neg h2] at hd
      rcases List.mem_append.mp hd with h | h
      · rcases List.mem_append.mp h with h | h
        · by_cases hm : ins.keyword = "MAINTAINER"
          · rw [if_pos hm] at h
            rcases hmd : createMaintainerDeprecated settings text
                (offsetAt text ins.instructionRange.start)
                (offsetAt text ins.instructionRange.start) with _ | dd <;>
              rw [hmd] at h
            · cases h
            · simp at h
              subst h
              exact createMaintainerDeprecated_good settings text _ _ hmd
          · rw [if_neg hm] at h
            cases h
        · unfold checkArguments at h
          by_cases hmiss : checkArgsMissing escape
              (ins.textContent.toList.drop ins.instruction.length) = true
          · rw [if_pos hmiss] at h
            simp at h
            subst h
            exact ⟨_, _, offsetAt_le_coe text hwr, rfl⟩
          · rw [if_neg hmiss] at h
            simp at h
      · by_cases hok : (checkArguments text escape ins).2 = true
        · rw [if_pos hok] at h
          by_cases hk1 : ins.keyword = "FROM" ∨ ins.keyword = "WORKDIR" ∨
              ins.keyword = "USER"
          · rw [if_pos hk1] at h
            exact checkSingleArgument_good text ins.args true _ _
              (fun s e v hse => ⟨s, e, hse, rfl⟩) hwa d h
          · rw [if_neg hk1] at h
            by_cases hk2 : ins.keyword = "STOPSIGNAL"
            · rw [if_pos hk2] at h
              exact checkSingleArgument_good text ins.args true _ _
                (fun s e v hse => ⟨s, e, hse, rfl⟩) hwa d h
            · rw [if_neg hk2] at h
              by_cases hk3 : ins.keyword = "EXPOSE"
              · rw [if_pos hk3] at h
                exact checkSingleArgument_good text ins.args false _ _
                  (fun s e v hse => ⟨s, e, hse, rfl⟩) hwa d h
              · rw [if_neg hk3] at h
                cases h
        · rw [if_neg hok] at h
          cases h
  · rw [if_pos (by simpa using h1)] at hd
    simp at hd
    subst hd
    exact ⟨_, _, offsetAt_le_coe text hwr, rfl⟩

/-- C9: for every input, every diagnostic returned by `validate` over a
well-formed document model has a range whose start is at or before its end
in the lexicographic position order, with both ends inside the document —
this includes the UNEXPECTED_TOKEN diagnostics built from the JSON-array
validator's `last` offset, which can be `-1`; the accessor's clamping puts
them at (0,0). -/
theorem claimC9 (settings : ValidatorSettings) (keywords : List String)
    (text : List Char) (df : Dockerfile) (fuel : Nat)
    (hwf : dockerfileWF df) :
    ∀ d ∈ validate settings keywords text df fuel,
      posLe d.range.start d.range.stop ∧
      posInBounds text d.range.start ∧ posInBounds text d.range.stop := by
  intro d hd
  have hgood : GoodDiag text d := by
    unfold validate at hd
    simp only [List.append_assoc, List.mem_append] at hd
    rcases hd with h | h | h | h
    · exact parseDirective_good text df.directive hwf.1 d h
    · rcases hdf : df.instructions with _ | ⟨ins0, rest⟩ <;> rw [hdf] at h
      · simp at h
        subst h
        exact ⟨0, 0, Int.le_refl 0, rfl⟩
      · simp only [] at h
        by_cases hne : ins0.keyword ≠ "FROM"
        · rw [if_pos hne] at h
          simp at h
          subst h
          exact ⟨_, _, offsetAt_le_coe text (hwf.2 ins0 (by rw [hdf]; simp)).1, rfl⟩
        · rw [if_neg hne] at h
          cases h
    · rw [List.mem_flatten] at h
      obtain ⟨sub, hsub, hdsub⟩ := h
      rw [List.mem_map] at hsub
      obtain ⟨ins, hins, rfl⟩ := hsub
      exact instructionDiagnostics_good settings keywords _ text ins
        (hwf.2 ins hins) d hdsub
    · exact scanLoop_good keywords _ text fuel _ d h
  obtain ⟨s, e, hse, hr⟩ := hgood
  rw [hr]
  exact ⟨positionAt_mono text s e hse, positionAt_inBounds text s,
    positionAt_inBounds text e⟩

/-- Witness for C9: the NO_SOURCE_IMAGE diagnostic of the empty document. -/
theorem claimC9_witness :
    posLe (createNoSourceImage ([] : List Char) 0 0).range.start
      (createNoSourceImage ([] : List Char) 0 0).range.stop ∧
    posInBounds ([] : List Char)
      (createNoSourceImage ([] : List Char) 0 0).range.start ∧
    posInBounds ([] : List Char)
      (createNoSourceImage ([] : List Char) 0 0).range.stop := by
  exact claimC9 ⟨ValidationSeverity.WARNING⟩ ["FROM"] [] ⟨none, []⟩ 1
    (by decide) (createNoSourceImage [] 0 0)
    (by simp [validate, parseDirective, scanLoop, charAt])

end DockerValidator
